import Mathlib

/-!
# GeoTIFF field values: the lookup tables, `getFieldTypeLength` and `GetValues`

A shallow embedding of `pkg/geotiff/values.go`.

* Go maps are association lists; a lookup of an absent key gives the zero
  value, as in Go.
* `uint16` and `uint` arguments are natural numbers; the arithmetic on the
  running offset `os` is reduced modulo `2 ^ 64`, the width of `uint`.
* A returned `[]interface{}` is a list of `Value`; the nil slice and the empty
  slice are both `[]`.
* A run of `GetValues` either returns (`some`) or is aborted (`none`) by a
  run-time panic: of `make` when `count` is too large, of the reflective call
  when the buffer has no method of the selected name, or of a read of the
  buffer that fails.
* The read methods of the buffer are parameters: each gives a number, or fails
  when the range it reads exceeds the buffer. Each call made on the buffer is
  recorded, in order, next to the result.
-/

namespace Geotiff

/-! ## Lookup tables -/

/-- The map literal assigned to `FieldTypeNames` in `init`. -/
def FieldTypeNames : List (Nat × String) :=
  [ (0x0001, "BYTE"),
    (0x0002, "ASCII"),
    (0x0003, "SHORT"),
    (0x0004, "LONG"),
    (0x0005, "RATIONAL"),
    (0x0006, "SBYTE"),
    (0x0007, "UNDEFINED"),
    (0x0008, "SSHORT"),
    (0x0009, "SLONG"),
    (0x000A, "SRATIONAL"),
    (0x000B, "FLOAT"),
    (0x000C, "DOUBLE"),
    (0x0010, "LONG8"),
    (0x0011, "SLONG8"),
    (0x0012, "IFD8") ]

/-- The assignment `m[v] = k` on a map from names to codes: an existing key is
overwritten, a new key is added. -/
def mapSet (m : List (String × Nat)) (v : String) (k : Nat) : List (String × Nat) :=
  match m with
  | [] => [(v, k)]
  | (v0, k0) :: rest => if v0 = v then (v, k) :: rest else (v0, k0) :: mapSet rest v k

/-- The index expression `m[name]`: the code stored under `name`, or the zero
value `0` when the key is absent. -/
def mapGet (m : List (String × Nat)) (name : String) : Nat :=
  match m with
  | [] => 0
  | (v0, k0) :: rest => if v0 = name then k0 else mapGet rest name

/-- The loop `for k, v := range names { m[v] = k }` of `init`, started from an
empty map and run in the order of the literal. -/
def dual (names : List (Nat × String)) : List (String × Nat) :=
  names.foldl (fun m kv => mapSet m kv.2 kv.1) []

/-- The map `FieldTypes`, the dual of `FieldTypeNames` built in `init`. -/
def FieldTypes : List (String × Nat) := dual FieldTypeNames

/-- The map literal assigned to `FieldTagNames` in `init`. -/
def FieldTagNames : List (Nat × String) :=
  [
    (0x013B, "Artist"),
    (0x0102, "BitsPerSample"),
    (0x0109, "CellLength"),
    (0x0108, "CellWidth"),
    (0x0140, "ColorMap"),
    (0x0103, "Compression"),
    (0x8298, "Copyright"),
    (0x0132, "DateTime"),
    (0x0152, "ExtraSamples"),
    (0x010A, "FillOrder"),
    (0x0121, "FreeByteCounts"),
    (0x0120, "FreeOffsets"),
    (0x0123, "GrayResponseCurve"),
    (0x0122, "GrayResponseUnit"),
    (0x013C, "HostComputer"),
    (0x010E, "ImageDescription"),
    (0x0101, "ImageLength"),
    (0x0100, "ImageWidth"),
    (0x010F, "Make"),
    (0x0119, "MaxSampleValue"),
    (0x0118, "MinSampleValue"),
    (0x0110, "Model"),
    (0x00FE, "NewSubfileType"),
    (0x0112, "Orientation"),
    (0x0106, "PhotometricInterpretation"),
    (0x011C, "PlanarConfiguration"),
    (0x0128, "ResolutionUnit"),
    (0x0116, "RowsPerStrip"),
    (0x0115, "SamplesPerPixel"),
    (0x0131, "Software"),
    (0x0117, "StripByteCounts"),
    (0x0111, "StripOffsets"),
    (0x00FF, "SubfileType"),
    (0x0107, "Threshholding"),
    (0x011A, "XResolution"),
    (0x011B, "YResolution"),
    (0x0146, "BadFaxLines"),
    (0x0147, "CleanFaxData"),
    (0x0157, "ClipPath"),
    (0x0148, "ConsecutiveBadFaxLines"),
    (0x01B1, "Decode"),
    (0x01B2, "DefaultImageColor"),
    (0x010D, "DocumentName"),
    (0x0150, "DotRange"),
    (0x0141, "HalftoneHints"),
    (0x015A, "Indexed"),
    (0x015B, "JPEGTables"),
    (0x011D, "PageName"),
    (0x0129, "PageNumber"),
    (0x013D, "Predictor"),
    (0x013F, "PrimaryChromaticities"),
    (0x0214, "ReferenceBlackWhite"),
    (0x0153, "SampleFormat"),
    (0x0154, "SMinSampleValue"),
    (0x0155, "SMaxSampleValue"),
    (0x022F, "StripRowCounts"),
    (0x014A, "SubIFDs"),
    (0x0124, "T4Options"),
    (0x0125, "T6Options"),
    (0x0145, "TileByteCounts"),
    (0x0143, "TileLength"),
    (0x0144, "TileOffsets"),
    (0x0142, "TileWidth"),
    (0x012D, "TransferFunction"),
    (0x013E, "WhitePoint"),
    (0x0158, "XClipPathUnits"),
    (0x011E, "XPosition"),
    (0x0211, "YCbCrCoefficients"),
    (0x0213, "YCbCrPositioning"),
    (0x0212, "YCbCrSubSampling"),
    (0x0159, "YClipPathUnits"),
    (0x011F, "YPosition"),
    (0x9202, "ApertureValue"),
    (0xA001, "ColorSpace"),
    (0x9004, "DateTimeDigitized"),
    (0x9003, "DateTimeOriginal"),
    (0x8769, "Exif IFD"),
    (0x9000, "ExifVersion"),
    (0x829A, "ExposureTime"),
    (0xA300, "FileSource"),
    (0x9209, "Flash"),
    (0xA000, "FlashpixVersion"),
    (0x829D, "FNumber"),
    (0xA420, "ImageUniqueID"),
    (0x9208, "LightSource"),
    (0x927C, "MakerNote"),
    (0x9201, "ShutterSpeedValue"),
    (0x9286, "UserComment"),
    (0x83BB, "IPTC"),
    (0x8773, "ICC Profile"),
    (0x02BC, "XMP"),
    (0xA480, "GDAL_METADATA"),
    (0xA481, "GDAL_NODATA"),
    (0x8649, "Photoshop"),
    (0x830E, "ModelPixelScale"),
    (0x8482, "ModelTiepoint"),
    (0x85D8, "ModelTransformation"),
    (0x87AF, "GeoKeyDirectory"),
    (0x87B0, "GeoDoubleParams"),
    (0x87B1, "GeoAsciiParams") ]

/-- The map `FieldTags`, the dual of `FieldTagNames` built in `init`. -/
def FieldTags : List (String × Nat) := dual FieldTagNames

/-- The slice literal assigned to `ArrayFields` in `init`: eight lookups in
`FieldTags`. -/
def ArrayFields : List Nat :=
  [
    mapGet FieldTags "BitsPerSample",
    mapGet FieldTags "ExtraSamples",
    mapGet FieldTags "SampleFormat",
    mapGet FieldTags "StripByteCounts",
    mapGet FieldTags "StripOffsets",
    mapGet FieldTags "StripRowCounts",
    mapGet FieldTags "TileByteCounts",
    mapGet FieldTags "TileOffsets" ]

/-- The map literal assigned to `GeoKeyNames` in `init`. -/
def GeoKeyNames : List (Nat × String) :=
  [
    (1024, "GTModelTypeGeoKey"),
    (1025, "GTRasterTypeGeoKey"),
    (1026, "GTCitationGeoKey"),
    (2048, "GeographicTypeGeoKey"),
    (2049, "GeogCitationGeoKey"),
    (2050, "GeogGeodeticDatumGeoKey"),
    (2051, "GeogPrimeMeridianGeoKey"),
    (2052, "GeogLinearUnitsGeoKey"),
    (2053, "GeogLinearUnitSizeGeoKey"),
    (2054, "GeogAngularUnitsGeoKey"),
    (2055, "GeogAngularUnitSizeGeoKey"),
    (2056, "GeogEllipsoidGeoKey"),
    (2057, "GeogSemiMajorAxisGeoKey"),
    (2058, "GeogSemiMinorAxisGeoKey"),
    (2059, "GeogInvFlatteningGeoKey"),
    (2060, "GeogAzimuthUnitsGeoKey"),
    (2061, "GeogPrimeMeridianLongGeoKey"),
    (2062, "GeogTOWGS84GeoKey"),
    (3072, "ProjectedCSTypeGeoKey"),
    (3073, "PCSCitationGeoKey"),
    (3074, "ProjectionGeoKey"),
    (3075, "ProjCoordTransGeoKey"),
    (3076, "ProjLinearUnitsGeoKey"),
    (3077, "ProjLinearUnitSizeGeoKey"),
    (3078, "ProjStdParallel1GeoKey"),
    (3079, "ProjStdParallel2GeoKey"),
    (3080, "ProjNatOriginLongGeoKey"),
    (3081, "ProjNatOriginLatGeoKey"),
    (3082, "ProjFalseEastingGeoKey"),
    (3083, "ProjFalseNorthingGeoKey"),
    (3084, "ProjFalseOriginLongGeoKey"),
    (3085, "ProjFalseOriginLatGeoKey"),
    (3086, "ProjFalseOriginEastingGeoKey"),
    (3087, "ProjFalseOriginNorthingGeoKey"),
    (3088, "ProjCenterLongGeoKey"),
    (3089, "ProjCenterLatGeoKey"),
    (3090, "ProjCenterEastingGeoKey"),
    (3091, "ProjCenterNorthingGeoKey"),
    (3092, "ProjScaleAtNatOriginGeoKey"),
    (3093, "ProjScaleAtCenterGeoKey"),
    (3094, "ProjAzimuthAngleGeoKey"),
    (3095, "ProjStraightVertPoleLongGeoKey"),
    (3096, "ProjRectifiedGridAngleGeoKey"),
    (4096, "VerticalCSTypeGeoKey"),
    (4097, "VerticalCitationGeoKey"),
    (4098, "VerticalDatumGeoKey"),
    (4099, "VerticalUnitsGeoKey") ]

/-- The map `GeoKeys`, the dual of `GeoKeyNames` built in `init`. -/
def GeoKeys : List (String × Nat) := dual GeoKeyNames

/-! ## The width resolver -/

/-- The function `getFieldTypeLength`: the width with a nil error, or width `0`
with the error built by `fmt.Errorf("invalid field type: %d", fieldType)`. -/
def getFieldTypeLength (fieldType : Nat) : Nat × Option String :=
  if fieldType = mapGet FieldTypes "BYTE" ∨ fieldType = mapGet FieldTypes "ASCII" ∨
      fieldType = mapGet FieldTypes "SBYTE" ∨ fieldType = mapGet FieldTypes "UNDEFINED" then
    (1, none)
  else if fieldType = mapGet FieldTypes "SHORT" ∨ fieldType = mapGet FieldTypes "SSHORT" then
    (2, none)
  else if fieldType = mapGet FieldTypes "LONG" ∨ fieldType = mapGet FieldTypes "SLONG" ∨
      fieldType = mapGet FieldTypes "FLOAT" then
    (4, none)
  else if fieldType = mapGet FieldTypes "LONG8" ∨ fieldType = mapGet FieldTypes "SLONG8" ∨
      fieldType = mapGet FieldTypes "IFD8" ∨ fieldType = mapGet FieldTypes "RATIONAL" ∨
      fieldType = mapGet FieldTypes "SRATIONAL" ∨ fieldType = mapGet FieldTypes "DOUBLE" then
    (8, none)
  else
    (0, some ("invalid field type: " ++ toString fieldType))

/-! ## Values and the buffer -/

/-- A Go `interface{}` as stored in the result of `GetValues`: the nil interface
of a slot that was never assigned, or a number tagged with its dynamic type. -/
inductive Value where
  | nil
  | uint8 (v : Nat)
  | int8 (v : Int)
  | uint16 (v : Nat)
  | int16 (v : Int)
  | uint32 (v : Nat)
  | int32 (v : Int)
  | uint64 (v : Nat)
  | int64 (v : Int)
  deriving DecidableEq, Repr

/-- The dynamic types a populated `Value` can have. -/
inductive Kind where
  | uint8 | int8 | uint16 | int16 | uint32 | int32 | uint64 | int64
  deriving DecidableEq, Repr

/-- The dynamic type of a value; the nil interface has none. -/
def Value.kind : Value → Option Kind
  | .nil => none
  | .uint8 _ => some Kind.uint8
  | .int8 _ => some Kind.int8
  | .uint16 _ => some Kind.uint16
  | .int16 _ => some Kind.int16
  | .uint32 _ => some Kind.uint32
  | .int32 _ => some Kind.int32
  | .uint64 _ => some Kind.uint64
  | .int64 _ => some Kind.int64

/-- Modelled from the spec: the type `DataSlice` is declared outside
`values.go`. Following the buffer collaborator of the specification it exposes
eight read methods, each taking an absolute byte offset and returning a
fixed-width number, or failing (`none`) when the range read from that offset
exceeds the bounds of the buffer. The methods are parameters of the
development. -/
structure DataSlice where
  ReadUint8 : Nat → Option Nat
  ReadInt8 : Nat → Option Int
  ReadUint16 : Nat → Option Nat
  ReadInt16 : Nat → Option Int
  ReadUint32 : Nat → Option Nat
  ReadInt32 : Nat → Option Int
  ReadUint64 : Nat → Option Nat
  ReadInt64 : Nat → Option Int

/-- The reflective lookup `reflect.ValueOf(slice).MethodByName(name)` followed by
`rv[0].Interface()` on the result of the call: the method as a function from the
offset to the boxed result of the read, `none` when the read fails; or `none` (the
zero `reflect.Value`) when the slice has no method of that name. -/
def DataSlice.MethodByName (slice : DataSlice) (name : String) :
    Option (Nat → Option Value) :=
  if name = "ReadUint8" then some (fun os => (slice.ReadUint8 os).map Value.uint8)
  else if name = "ReadInt8" then some (fun os => (slice.ReadInt8 os).map Value.int8)
  else if name = "ReadUint16" then some (fun os => (slice.ReadUint16 os).map Value.uint16)
  else if name = "ReadInt16" then some (fun os => (slice.ReadInt16 os).map Value.int16)
  else if name = "ReadUint32" then some (fun os => (slice.ReadUint32 os).map Value.uint32)
  else if name = "ReadInt32" then some (fun os => (slice.ReadInt32 os).map Value.int32)
  else if name = "ReadUint64" then some (fun os => (slice.ReadUint64 os).map Value.uint64)
  else if name = "ReadInt64" then some (fun os => (slice.ReadInt64 os).map Value.int64)
  else none

/-- The dynamic type of the result of the read method of a given name. -/
def methodKind (name : String) : Option Kind :=
  if name = "ReadUint8" then some Kind.uint8
  else if name = "ReadInt8" then some Kind.int8
  else if name = "ReadUint16" then some Kind.uint16
  else if name = "ReadInt16" then some Kind.int16
  else if name = "ReadUint32" then some Kind.uint32
  else if name = "ReadInt32" then some Kind.int32
  else if name = "ReadUint64" then some Kind.uint64
  else if name = "ReadInt64" then some Kind.int64
  else none

/-! ## The value decoder -/

/-- One call made on the buffer: the name of the method and the offset passed. -/
structure ReadCall where
  method : String
  offset : Nat
  deriving DecidableEq, Repr

/-- The variables a loop of `GetValues` updates: the running offset `os`, the
slice `values`, and the calls made on the buffer so far. -/
structure LoopState where
  os : Nat
  values : List Value
  reads : List ReadCall
  deriving DecidableEq, Repr

/-- What `GetValues` returns: the slice, the error (`none` for nil), and the calls
made on the buffer during the run. -/
structure Result where
  values : List Value
  err : Option String
  reads : List ReadCall
  deriving DecidableEq, Repr

/-- The width of `uint`. -/
def uintSize : Nat := 2 ^ 64

/-- The first `switch` of `GetValues`: the value given to `readMethodName`. Every
branch also runs `values = make([]interface{}, count)`. -/
def readMethodName (fieldType : Nat) : String :=
  if fieldType = mapGet FieldTypes "BYTE" ∨ fieldType = mapGet FieldTypes "ASCII" ∨
      fieldType = mapGet FieldTypes "UNDEFINED" then "ReadUint8"
  else if fieldType = mapGet FieldTypes "SBYTE" then "ReadInt8"
  else if fieldType = mapGet FieldTypes "SHORT" then "ReadUint16"
  else if fieldType = mapGet FieldTypes "SSHORT" then "ReadInt16"
  else if fieldType = mapGet FieldTypes "LONG" then "ReadUint32"
  else if fieldType = mapGet FieldTypes "SLONG" then "ReadInt32"
  else if fieldType = mapGet FieldTypes "LONG8" ∨ fieldType = mapGet FieldTypes "IFD8" then
    "ReadUint64"
  else if fieldType = mapGet FieldTypes "SLONG8" then "ReadInt64"
  else if fieldType = mapGet FieldTypes "RATIONAL" then "ReadUint32"
  else "unknown"

/-- The largest `count` for which `make([]interface{}, count)` does not panic: the
Go runtime refuses a slice of more than `maxAlloc` bytes, which is `2 ^ 48` on
linux/amd64, and an `interface{}` takes 16 bytes. An allocation within this bound is
taken to succeed. -/
def maxSliceLen : Nat := 2 ^ 48 / 16

/-- The body shared by the two loops of `GetValues`, at loop index `i`:
`os += i * uint(fieldTypeLength)`, then the reflective call of the method named
`name` at `os`, then `values[i] = rv[0].Interface()`. The call panics (`none`)
when the slice has no such method, and a read that fails aborts the run as well:
`GetValues` does not recover from it. -/
def loopBody (slice : DataSlice) (name : String) (fieldTypeLength : Nat)
    (st : LoopState) (i : Nat) : Option LoopState :=
  let os := (st.os + (i * fieldTypeLength) % uintSize) % uintSize
  match slice.MethodByName name with
  | none => none
  | some method =>
    match method os with
    | none => none
    | some v =>
      some (LoopState.mk os (st.values.set i v) (st.reads ++ [ReadCall.mk name os]))

/-- The body of the loops once the lookup of the method has succeeded with
`method`: the state after the iteration at index `i`. -/
def loopStep (method : Nat → Value) (name : String) (fieldTypeLength : Nat)
    (st : LoopState) (i : Nat) : LoopState :=
  LoopState.mk ((st.os + (i * fieldTypeLength) % uintSize) % uintSize)
    (st.values.set i (method ((st.os + (i * fieldTypeLength) % uintSize) % uintSize)))
    (st.reads ++ [ReadCall.mk name ((st.os + (i * fieldTypeLength) % uintSize) % uintSize)])

/-- The state of a loop after its first `n` iterations, when the iteration number
`k` runs at loop index `idx k` and every lookup of the method succeeds. -/
def loopAfter (method : Nat → Value) (name : String) (fieldTypeLength : Nat) (st : LoopState)
    (idx : Nat → Nat) (n : Nat) : LoopState :=
  ((List.range n).map idx).foldl (loopStep method name fieldTypeLength) st

/-- The indices visited by `for i := uint(0); i < count; i++`. -/
def normalIndices (count : Nat) : List Nat := List.range count

/-- The indices visited by `for i := uint(0); i < count; i += 2`. The counter does
not wrap around: `make([]interface{}, count)` has succeeded before the loop, which
keeps `count` within `maxSliceLen`. -/
def rationalIndices (count : Nat) : List Nat :=
  (List.range count).filter (fun i => i % 2 = 0)

/-- The function `GetValues`. An error of the width resolver is returned, wrapped,
with the nil slice. Otherwise the slice of `count` nil slots is made, which panics
when `count` exceeds `maxSliceLen`, and one of the two loops runs; types other than
RATIONAL and SRATIONAL take the first. -/
def GetValues (slice : DataSlice) (fieldType count offset : Nat) : Option Result :=
  match getFieldTypeLength fieldType with
  | (_, some err) =>
    some (Result.mk [] (some ("cannot get field type length due to " ++ err)) [])
  | (fieldTypeLength, none) =>
    if count ≤ maxSliceLen then
      let values := List.replicate count Value.nil
      let name := readMethodName fieldType
      let indices :=
        if fieldType ≠ mapGet FieldTypes "RATIONAL" ∧
            fieldType ≠ mapGet FieldTypes "SRATIONAL" then
          normalIndices count
        else
          rationalIndices count
      match indices.foldlM (loopBody slice name fieldTypeLength)
          (LoopState.mk offset values []) with
      | none => none
      | some st => some (Result.mk st.values none st.reads)
    else
      none

/-! ## A concrete buffer -/

/-- The byte at a position of a byte list, `0` past its end. -/
def byteAt (bytes : List Nat) (os : Nat) : Nat := bytes.getD os 0

/-- The unsigned big-endian number held in `n` bytes from `os`. -/
def beUint (bytes : List Nat) (os : Nat) : Nat → Nat
  | 0 => 0
  | n + 1 => beUint bytes os n * 256 + byteAt bytes (os + n)

/-- The unsigned big-endian read of `n` bytes from `os`: it fails when the range
from `os` to `os + n` exceeds the bytes. -/
def beRead (bytes : List Nat) (os n : Nat) : Option Nat :=
  if os + n ≤ bytes.length then some (beUint bytes os n) else none

/-- The two's complement reading of an unsigned number of `bits` bits. -/
def toSigned (bits : Nat) (v : Nat) : Int :=
  if v < 2 ^ (bits - 1) then (v : Int) else (v : Int) - (2 ^ bits : Nat)

/-- Modelled from the spec: a `DataSlice` over a list of bytes read big-endian, the
byte order of the concrete scenarios of the specification. A read whose range
exceeds the bytes fails. -/
def bigEndianSlice (bytes : List Nat) : DataSlice :=
  DataSlice.mk
    (fun os => beRead bytes os 1) (fun os => (beRead bytes os 1).map (toSigned 8))
    (fun os => beRead bytes os 2) (fun os => (beRead bytes os 2).map (toSigned 16))
    (fun os => beRead bytes os 4) (fun os => (beRead bytes os 4).map (toSigned 32))
    (fun os => beRead bytes os 8) (fun os => (beRead bytes os 8).map (toSigned 64))

/-- A buffer of 108 bytes whose bytes 100 to 107 are `00 01 00 02 00 03 00 04`. -/
def scenarioBytes : List Nat := List.replicate 100 0 ++ [0, 1, 0, 2, 0, 3, 0, 4]

/-- The keys of `FieldTypeNames`: the defined field-type codes. -/
def definedCodes : List Nat := FieldTypeNames.map Prod.fst

/-- The field types with a read method that take the first loop of `GetValues`:
BYTE, ASCII, UNDEFINED, SBYTE, SHORT, SSHORT, LONG, SLONG, LONG8, IFD8, SLONG8. -/
def normalCodes : List Nat := [1, 2, 7, 6, 3, 8, 4, 9, 16, 18, 17]

/-- The width table of the specification, by name of the field type: 1 byte for
BYTE, ASCII, SBYTE, UNDEFINED; 2 for SHORT, SSHORT; 4 for LONG, SLONG, FLOAT; 8 for
LONG8, SLONG8, IFD8, RATIONAL, SRATIONAL, DOUBLE. -/
def specWidth (name : String) : Nat :=
  if name ∈ ["BYTE", "ASCII", "SBYTE", "UNDEFINED"] then 1
  else if name ∈ ["SHORT", "SSHORT"] then 2
  else if name ∈ ["LONG", "SLONG", "FLOAT"] then 4
  else if name ∈ ["LONG8", "SLONG8", "IFD8", "RATIONAL", "SRATIONAL", "DOUBLE"] then 8
  else 0

/-- The native read of a field type at an offset, after the dispatch table of the
specification: unsigned 8-bit for BYTE(1), ASCII(2), UNDEFINED(7); signed 8-bit for
SBYTE(6); unsigned 16-bit for SHORT(3); signed 16-bit for SSHORT(8); unsigned 32-bit
for LONG(4); signed 32-bit for SLONG(9); unsigned 64-bit for LONG8(16), IFD8(18);
signed 64-bit for SLONG8(17); unsigned 32-bit for RATIONAL(5). It fails where the
read of the buffer fails, and a type without a read operation has none. -/
def nativeRead (slice : DataSlice) (fieldType os : Nat) : Option Value :=
  if fieldType = 1 ∨ fieldType = 2 ∨ fieldType = 7 then (slice.ReadUint8 os).map Value.uint8
  else if fieldType = 6 then (slice.ReadInt8 os).map Value.int8
  else if fieldType = 3 then (slice.ReadUint16 os).map Value.uint16
  else if fieldType = 8 then (slice.ReadInt16 os).map Value.int16
  else if fieldType = 4 then (slice.ReadUint32 os).map Value.uint32
  else if fieldType = 9 then (slice.ReadInt32 os).map Value.int32
  else if fieldType = 16 ∨ fieldType = 18 then (slice.ReadUint64 os).map Value.uint64
  else if fieldType = 17 then (slice.ReadInt64 os).map Value.int64
  else if fieldType = 5 then (slice.ReadUint32 os).map Value.uint32
  else none

/-- The offsets passed to the read method by a loop that starts with the running
offset `os` and visits the indices of the list, in order. -/
def runOffsets (fieldTypeLength : Nat) : Nat → List Nat → List Nat
  | _, [] => []
  | os, i :: l =>
    ((os + (i * fieldTypeLength) % uintSize) % uintSize) ::
      runOffsets fieldTypeLength ((os + (i * fieldTypeLength) % uintSize) % uintSize) l

/-- A read method made total: the nil interface where the read fails. -/
def totalOf (method : Nat → Option Value) (os : Nat) : Value := (method os).getD Value.nil

/-! ## The lookup table, evaluated -/

theorem fieldTypes_byte : mapGet FieldTypes "BYTE" = 1 := by decide
theorem fieldTypes_ascii : mapGet FieldTypes "ASCII" = 2 := by decide
theorem fieldTypes_short : mapGet FieldTypes "SHORT" = 3 := by decide
theorem fieldTypes_long : mapGet FieldTypes "LONG" = 4 := by decide
theorem fieldTypes_rational : mapGet FieldTypes "RATIONAL" = 5 := by decide
theorem fieldTypes_sbyte : mapGet FieldTypes "SBYTE" = 6 := by decide
theorem fieldTypes_undefined : mapGet FieldTypes "UNDEFINED" = 7 := by decide
theorem fieldTypes_sshort : mapGet FieldTypes "SSHORT" = 8 := by decide
theorem fieldTypes_slong : mapGet FieldTypes "SLONG" = 9 := by decide
theorem fieldTypes_srational : mapGet FieldTypes "SRATIONAL" = 10 := by decide
theorem fieldTypes_float : mapGet FieldTypes "FLOAT" = 11 := by decide
theorem fieldTypes_double : mapGet FieldTypes "DOUBLE" = 12 := by decide
theorem fieldTypes_long8 : mapGet FieldTypes "LONG8" = 16 := by decide
theorem fieldTypes_slong8 : mapGet FieldTypes "SLONG8" = 17 := by decide
theorem fieldTypes_ifd8 : mapGet FieldTypes "IFD8" = 18 := by decide

theorem definedCodes_eq :
    definedCodes = [1, 2, 3, 4, 5, 6, 7, 8, 9, 10, 11, 12, 16, 17, 18] := by decide

theorem mem_definedCodes (c : Nat) :
    c ∈ definedCodes ↔ c = 1 ∨ c = 2 ∨ c = 3 ∨ c = 4 ∨ c = 5 ∨ c = 6 ∨ c = 7 ∨ c = 8 ∨ c = 9 ∨
      c = 10 ∨ c = 11 ∨ c = 12 ∨ c = 16 ∨ c = 17 ∨ c = 18 := by
  rw [definedCodes_eq]; simp

/-- The switch of `getFieldTypeLength` with the table lookups evaluated. -/
theorem getFieldTypeLength_eq (c : Nat) :
    getFieldTypeLength c =
      if c = 1 ∨ c = 2 ∨ c = 6 ∨ c = 7 then (1, none)
      else if c = 3 ∨ c = 8 then (2, none)
      else if c = 4 ∨ c = 9 ∨ c = 11 then (4, none)
      else if c = 16 ∨ c = 17 ∨ c = 18 ∨ c = 5 ∨ c = 10 ∨ c = 12 then (8, none)
      else (0, some ("invalid field type: " ++ toString c)) := by
  unfold getFieldTypeLength
  rw [fieldTypes_byte, fieldTypes_ascii, fieldTypes_short, fieldTypes_long, fieldTypes_rational,
    fieldTypes_sbyte, fieldTypes_undefined, fieldTypes_sshort, fieldTypes_slong,
    fieldTypes_srational, fieldTypes_float, fieldTypes_double, fieldTypes_long8,
    fieldTypes_slong8, fieldTypes_ifd8]

/-- The first switch of `GetValues` with the table lookups evaluated. -/
theorem readMethodName_eq (c : Nat) :
    readMethodName c =
      if c = 1 ∨ c = 2 ∨ c = 7 then "ReadUint8"
      else if c = 6 then "ReadInt8"
      else if c = 3 then "ReadUint16"
      else if c = 8 then "ReadInt16"
      else if c = 4 then "ReadUint32"
      else if c = 9 then "ReadInt32"
      else if c = 16 ∨ c = 18 then "ReadUint64"
      else if c = 17 then "ReadInt64"
      else if c = 5 then "ReadUint32"
      else "unknown" := by
  unfold readMethodName
  rw [fieldTypes_byte, fieldTypes_ascii, fieldTypes_short, fieldTypes_long, fieldTypes_rational,
    fieldTypes_sbyte, fieldTypes_undefined, fieldTypes_sshort, fieldTypes_slong,
    fieldTypes_long8, fieldTypes_slong8, fieldTypes_ifd8]

theorem getFieldTypeLength_of_not_mem {c : Nat} (h : c ∉ definedCodes) :
    getFieldTypeLength c = (0, some ("invalid field type: " ++ toString c)) := by
  rw [mem_definedCodes] at h
  rw [getFieldTypeLength_eq]
  simp only [not_or] at h
  obtain ⟨h1, h2, h3, h4, h5, h6, h7, h8, h9, h10, h11, h12, h16, h17, h18⟩ := h
  simp [h1, h2, h3, h4, h5, h6, h7, h8, h9, h10, h11, h12, h16, h17, h18]

theorem getFieldTypeLength_of_mem {c : Nat} (h : c ∈ definedCodes) :
    ∃ w, getFieldTypeLength c = (w, none) ∧ (w = 1 ∨ w = 2 ∨ w = 4 ∨ w = 8) := by
  rw [mem_definedCodes] at h
  rcases h with h | h | h | h | h | h | h | h | h | h | h | h | h | h | h <;> subst h <;>
    simp [getFieldTypeLength_eq]

theorem foldl_loopStep_length (method : Nat → Value) (name : String) (w : Nat) (l : List Nat)
    (st : LoopState) :
    (l.foldl (loopStep method name w) st).values.length = st.values.length := by
  induction l generalizing st with
  | nil => rfl
  | cons i l ih =>
    rw [List.foldl_cons, ih]
    simp [loopStep]

/-- A loop appends one call per visited index to the calls made so far, each of
them a call of the selected method. -/
theorem foldl_loopStep_reads (method : Nat → Value) (name : String) (w : Nat) (l : List Nat)
    (st : LoopState) :
    ∃ extra, (l.foldl (loopStep method name w) st).reads = st.reads ++ extra ∧
      extra.length = l.length ∧ ∀ c ∈ extra, c.method = name := by
  induction l generalizing st with
  | nil => exact ⟨[], by simp⟩
  | cons i l ih =>
    obtain ⟨extra, h1, h2, h3⟩ := ih (loopStep method name w st i)
    refine ⟨ReadCall.mk name ((st.os + (i * w) % uintSize) % uintSize) :: extra, ?_, ?_, ?_⟩
    · rw [List.foldl_cons, h1]
      simp [loopStep]
    · simp [h2]
    · intro c hc
      rcases List.mem_cons.1 hc with h | h
      · rw [h]
      · exact h3 c h

/-- A slot whose index the loop does not visit keeps its content. -/
theorem foldl_loopStep_untouched (method : Nat → Value) (name : String) (w : Nat) (l : List Nat)
    (st : LoopState) (j : Nat) (hj : j ∉ l) :
    (l.foldl (loopStep method name w) st).values[j]? = st.values[j]? := by
  induction l generalizing st with
  | nil => rfl
  | cons i l ih =>
    have hne : i ≠ j := fun h => hj (h ▸ List.mem_cons_self _ _)
    have hnot : j ∉ l := fun h => hj (List.mem_cons_of_mem _ h)
    rw [List.foldl_cons, ih _ hnot]
    simp [loopStep, List.getElem?_set_ne hne]

/-- A slot whose index the loop visits holds the result of one of the calls made. -/
theorem foldl_loopStep_touched (method : Nat → Value) (name : String) (w : Nat) (l : List Nat)
    (st : LoopState) (j : Nat) (hj : j ∈ l) (hlen : j < st.values.length) :
    ∃ os, ReadCall.mk name os ∈ (l.foldl (loopStep method name w) st).reads ∧
      (l.foldl (loopStep method name w) st).values[j]? = some (method os) := by
  induction l generalizing st with
  | nil => exact absurd hj (List.not_mem_nil j)
  | cons i l ih =>
    rw [List.foldl_cons]
    by_cases hmem : j ∈ l
    · exact ih (loopStep method name w st i) hmem (by simpa [loopStep] using hlen)
    · have hji : j = i := by
        rcases List.mem_cons.1 hj with h | h
        · exact h
        · exact absurd h hmem
      subst hji
      refine ⟨(st.os + (j * w) % uintSize) % uintSize, ?_, ?_⟩
      · obtain ⟨extra, h1, -, -⟩ := foldl_loopStep_reads method name w l (loopStep method name w st j)
        rw [h1]
        simp [loopStep]
      · rw [foldl_loopStep_untouched method name w l _ j hmem]
        simp [loopStep, List.getElem?_set_self, hlen]

/-- Every slot after a loop is a slot from before it or the result of a call. -/
theorem foldl_loopStep_mem (method : Nat → Value) (name : String) (w : Nat) (l : List Nat)
    (st : LoopState) (v : Value) (hv : v ∈ (l.foldl (loopStep method name w) st).values) :
    v ∈ st.values ∨ ∃ os, v = method os := by
  induction l generalizing st with
  | nil => exact Or.inl hv
  | cons i l ih =>
    rw [List.foldl_cons] at hv
    rcases ih _ hv with h | h
    · rcases List.mem_or_eq_of_mem_set h with h2 | h2
      · exact Or.inl h2
      · exact Or.inr ⟨_, h2⟩
    · exact Or.inr h

/-! ## The width resolver: claims -/

/-- C1: for every defined field-type code `getFieldTypeLength` returns a nil error
and the width of the table, by code and by name: 1 for BYTE(1), ASCII(2), SBYTE(6),
UNDEFINED(7); 2 for SHORT(3), SSHORT(8); 4 for LONG(4), SLONG(9), FLOAT(11); 8 for
RATIONAL(5), SRATIONAL(10), DOUBLE(12), LONG8(16), SLONG8(17), IFD8(18). Every
successful result is one of 1, 2, 4, 8. -/
theorem getFieldTypeLength_table :
    (∀ kv ∈ FieldTypeNames, getFieldTypeLength kv.1 = (specWidth kv.2, none)) ∧
    (∀ c ∈ [1, 2, 6, 7], getFieldTypeLength c = (1, none)) ∧
    (∀ c ∈ [3, 8], getFieldTypeLength c = (2, none)) ∧
    (∀ c ∈ [4, 9, 11], getFieldTypeLength c = (4, none)) ∧
    (∀ c ∈ [5, 10, 12, 16, 17, 18], getFieldTypeLength c = (8, none)) ∧
    (∀ c w, getFieldTypeLength c = (w, none) → w = 1 ∨ w = 2 ∨ w = 4 ∨ w = 8) := by
  refine ⟨by decide, by decide, by decide, by decide, by decide, ?_⟩
  intro c w h
  by_cases hc : c ∈ definedCodes
  · obtain ⟨w0, h0, hw⟩ := getFieldTypeLength_of_mem hc
    rw [h0] at h
    cases h
    exact hw
  · rw [getFieldTypeLength_of_not_mem hc] at h
    cases h

/-- C1, at RATIONAL: the width returned for code 5 is 8, one of 1, 2, 4, 8. -/
theorem getFieldTypeLength_table_witness :
    getFieldTypeLength 5 = (8, none) ∧ ((8 : Nat) = 1 ∨ (8 : Nat) = 2 ∨ (8 : Nat) = 4 ∨ (8 : Nat) = 8) :=
  ⟨by decide, getFieldTypeLength_table.2.2.2.2.2 5 8 (by decide)⟩

/-- C2: `getFieldTypeLength c` returns an error exactly when `c` is not one of the
15 defined codes (1 to 12, 16, 17, 18); then the width is 0 and the message is
`invalid field type: ` followed by `c` in decimal. -/
theorem getFieldTypeLength_error_iff (c : Nat) :
    ((getFieldTypeLength c).2 ≠ none ↔ c ∉ definedCodes) ∧
    (c ∉ definedCodes ↔ ¬ ((1 ≤ c ∧ c ≤ 12) ∨ c = 16 ∨ c = 17 ∨ c = 18)) ∧
    ((getFieldTypeLength c).2 ≠ none →
      getFieldTypeLength c = (0, some ("invalid field type: " ++ Nat.repr c))) := by
  have hset : c ∉ definedCodes ↔ ¬ ((1 ≤ c ∧ c ≤ 12) ∨ c = 16 ∨ c = 17 ∨ c = 18) := by
    rw [mem_definedCodes]
    constructor
    · intro h h2
      apply h
      omega
    · intro h h2
      apply h
      omega
  have hiff : (getFieldTypeLength c).2 ≠ none ↔ c ∉ definedCodes := by
    constructor
    · intro h hc
      obtain ⟨w, hw, -⟩ := getFieldTypeLength_of_mem hc
      rw [hw] at h
      exact h rfl
    · intro hc
      rw [getFieldTypeLength_of_not_mem hc]
      simp
  refine ⟨hiff, hset, ?_⟩
  intro h
  exact getFieldTypeLength_of_not_mem (hiff.1 h)

/-- C2, at code 13: the call fails with width 0 and the message
`invalid field type: 13`. -/
theorem getFieldTypeLength_error_iff_witness :
    (getFieldTypeLength 13).2 ≠ none ∧
      getFieldTypeLength 13 = (0, some "invalid field type: 13") :=
  ⟨by decide, (getFieldTypeLength_error_iff 13).2.2 (by decide)⟩

/-! ## Maps and their duals -/

theorem mapSet_of_not_mem (m : List (String × Nat)) (v : String) (k : Nat)
    (h : v ∉ m.map Prod.fst) : mapSet m v k = m ++ [(v, k)] := by
  induction m with
  | nil => rfl
  | cons e m ih =>
    obtain ⟨v0, k0⟩ := e
    simp only [List.map_cons, List.mem_cons, not_or] at h
    simp [mapSet, Ne.symm h.1, ih h.2]

theorem foldl_mapSet_of_nodup (l : List (Nat × String)) (acc : List (String × Nat))
    (hl : (l.map Prod.snd).Nodup) (hdisj : ∀ kv ∈ l, kv.2 ∉ acc.map Prod.fst) :
    l.foldl (fun m kv => mapSet m kv.2 kv.1) acc = acc ++ l.map Prod.swap := by
  induction l generalizing acc with
  | nil => simp
  | cons e l ih =>
    obtain ⟨k, v⟩ := e
    simp only [List.map_cons, List.nodup_cons] at hl
    rw [List.foldl_cons, mapSet_of_not_mem acc v k (hdisj (k, v) (List.mem_cons_self _ _)),
      ih _ hl.2]
    · simp
    · intro kv hkv hmem
      simp only [List.map_append, List.map_cons, List.map_nil, List.mem_append,
        List.mem_singleton] at hmem
      rcases hmem with h | h
      · exact hdisj kv (List.mem_cons_of_mem _ hkv) h
      · exact hl.1 (h ▸ List.mem_map_of_mem Prod.snd hkv)

/-- When no two codes share a name, the dual holds one swapped entry per entry. -/
theorem dual_of_nodup (l : List (Nat × String)) (hl : (l.map Prod.snd).Nodup) :
    dual l = l.map Prod.swap := by
  unfold dual
  rw [foldl_mapSet_of_nodup l [] hl (fun _ _ h => by simp at h)]
  simp

theorem mapGet_of_not_mem (m : List (String × Nat)) (v : String) (h : v ∉ m.map Prod.fst) :
    mapGet m v = 0 := by
  induction m with
  | nil => rfl
  | cons e m ih =>
    obtain ⟨v0, k0⟩ := e
    simp only [List.map_cons, List.mem_cons, not_or] at h
    simp [mapGet, Ne.symm h.1, ih h.2]

theorem mapGet_of_mem (m : List (String × Nat)) (hm : (m.map Prod.fst).Nodup) (v : String)
    (k : Nat) (h : (v, k) ∈ m) : mapGet m v = k := by
  induction m with
  | nil => exact absurd h (List.not_mem_nil _)
  | cons e m ih =>
    obtain ⟨v0, k0⟩ := e
    simp only [List.map_cons, List.nodup_cons] at hm
    rcases List.mem_cons.1 h with h1 | h1
    · cases h1
      simp [mapGet]
    · have hne : v0 ≠ v := fun heq => hm.1 (heq ▸ List.mem_map_of_mem Prod.fst h1)
      simp [mapGet, hne, ih hm.2 h1]

/-- A lookup gives the zero value or the code of an entry of the map. -/
theorem mapGet_zero_or_mem (m : List (String × Nat)) (v : String) :
    mapGet m v = 0 ∨ (v, mapGet m v) ∈ m := by
  induction m with
  | nil => exact Or.inl rfl
  | cons e m ih =>
    obtain ⟨v0, k0⟩ := e
    by_cases hv : v0 = v
    · subst hv
      simp [mapGet]
    · rcases ih with h | h
      · left
        simpa [mapGet, hv] using h
      · right
        simp only [mapGet, hv, if_false]
        exact List.mem_cons_of_mem _ h

theorem map_fst_map_swap (l : List (Nat × String)) :
    (l.map Prod.swap).map Prod.fst = l.map Prod.snd := by
  simp [List.map_map, Function.comp_def]

/-- The order in which `range` visits a map does not change the lookups in its
dual, when no two codes share a name. -/
theorem mapGet_dual_perm (names l : List (Nat × String)) (hn : (names.map Prod.snd).Nodup)
    (hp : l.Perm names) (name : String) : mapGet (dual l) name = mapGet (dual names) name := by
  have hl : (l.map Prod.snd).Nodup := (hp.map Prod.snd).nodup_iff.2 hn
  rw [dual_of_nodup l hl, dual_of_nodup names hn]
  by_cases hmem : name ∈ names.map Prod.snd
  · obtain ⟨⟨k, v⟩, hkv, hv⟩ := List.mem_map.1 hmem
    simp only at hv
    subst hv
    have h1 : (v, k) ∈ names.map Prod.swap := List.mem_map.2 ⟨(k, v), hkv, rfl⟩
    have h2 : (v, k) ∈ l.map Prod.swap := List.mem_map.2 ⟨(k, v), hp.mem_iff.2 hkv, rfl⟩
    rw [mapGet_of_mem _ (by rw [map_fst_map_swap]; exact hl) v k h2,
      mapGet_of_mem _ (by rw [map_fst_map_swap]; exact hn) v k h1]
  · rw [mapGet_of_not_mem _ _ (by
        rw [map_fst_map_swap]
        exact fun h => hmem ((hp.map Prod.snd).mem_iff.1 h)),
      mapGet_of_not_mem _ _ (by rw [map_fst_map_swap]; exact hmem)]

theorem mem_dual_iff (l : List (Nat × String)) (hl : (l.map Prod.snd).Nodup) (k : Nat)
    (v : String) : (v, k) ∈ dual l ↔ (k, v) ∈ l := by
  rw [dual_of_nodup l hl]
  constructor
  · intro h
    obtain ⟨⟨k0, v0⟩, h0, heq⟩ := List.mem_map.1 h
    cases heq
    exact h0
  · intro h
    exact List.mem_map.2 ⟨(k, v), h, rfl⟩

theorem fieldTypeNames_nodup : (FieldTypeNames.map Prod.snd).Nodup := by decide

set_option maxRecDepth 100000 in
theorem fieldTagNames_nodup : (FieldTagNames.map Prod.snd).Nodup := by decide

set_option maxRecDepth 100000 in
theorem geoKeyNames_nodup : (GeoKeyNames.map Prod.snd).Nodup := by decide

/-! ## The lookup tables: claims -/

/-- C12: `FieldTypes` is the exact inverse of `FieldTypeNames`: code `k` has name
`v` in `FieldTypeNames` if and only if name `v` has code `k` in `FieldTypes`. The 15
names are pairwise distinct, no code is lost, every name used in the switches of
`GetValues` and `getFieldTypeLength` resolves to a non-zero code, and the order in
which `range` visits `FieldTypeNames` does not matter. -/
theorem FieldTypes_inverse :
    (∀ k v, (k, v) ∈ FieldTypeNames ↔ (v, k) ∈ FieldTypes) ∧
    (FieldTypeNames.map Prod.snd).Nodup ∧
    FieldTypes.length = FieldTypeNames.length ∧
    (∀ kv ∈ FieldTypeNames, mapGet FieldTypes kv.2 = kv.1) ∧
    (∀ v k, mapGet FieldTypes v = k → k ≠ 0 → (k, v) ∈ FieldTypeNames) ∧
    (∀ name ∈ ["BYTE", "ASCII", "UNDEFINED", "SBYTE", "SHORT", "SSHORT", "LONG", "SLONG",
        "LONG8", "IFD8", "SLONG8", "RATIONAL", "SRATIONAL", "FLOAT", "DOUBLE"],
      mapGet FieldTypes name ≠ 0) ∧
    (∀ l : List (Nat × String), l.Perm FieldTypeNames →
      ∀ name, mapGet (dual l) name = mapGet FieldTypes name) := by
  have hiff : ∀ k v, (k, v) ∈ FieldTypeNames ↔ (v, k) ∈ FieldTypes := fun k v =>
    (mem_dual_iff FieldTypeNames fieldTypeNames_nodup k v).symm
  refine ⟨hiff, fieldTypeNames_nodup, by decide, by decide, ?_, by decide, ?_⟩
  · intro v k hk hne
    rcases mapGet_zero_or_mem FieldTypes v with h | h
    · exact absurd (hk ▸ h) hne
    · rw [hk] at h
      exact (hiff k v).2 h
  · intro l hp name
    exact mapGet_dual_perm FieldTypeNames l fieldTypeNames_nodup hp name

/-- C12, at SHORT: the entry `(3, SHORT)` of `FieldTypeNames` gives the entry
`(SHORT, 3)` of `FieldTypes`. -/
theorem FieldTypes_inverse_witness :
    (3, "SHORT") ∈ FieldTypeNames ∧ ("SHORT", 3) ∈ FieldTypes :=
  ⟨by decide, (FieldTypes_inverse.1 3 "SHORT").1 (by decide)⟩

/-- C13: `FieldTags` is the exact inverse of `FieldTagNames` and `GeoKeys` the
exact inverse of `GeoKeyNames`: the reverse table maps the name of every code of the
forward table back to that code, and it has exactly as many entries as the forward
table, no two codes sharing a name. The order in which `range` visits the forward
table does not matter. -/
theorem FieldTags_GeoKeys_inverse :
    ((∀ kv ∈ FieldTagNames, mapGet FieldTags kv.2 = kv.1) ∧
      (∀ k v, (k, v) ∈ FieldTagNames ↔ (v, k) ∈ FieldTags) ∧
      FieldTags.length = FieldTagNames.length ∧
      (FieldTagNames.map Prod.snd).Nodup ∧
      (∀ l : List (Nat × String), l.Perm FieldTagNames →
        ∀ name, mapGet (dual l) name = mapGet FieldTags name)) ∧
    ((∀ kv ∈ GeoKeyNames, mapGet GeoKeys kv.2 = kv.1) ∧
      (∀ k v, (k, v) ∈ GeoKeyNames ↔ (v, k) ∈ GeoKeys) ∧
      GeoKeys.length = GeoKeyNames.length ∧
      (GeoKeyNames.map Prod.snd).Nodup ∧
      (∀ l : List (Nat × String), l.Perm GeoKeyNames →
        ∀ name, mapGet (dual l) name = mapGet GeoKeys name)) := by
  have key : ∀ names : List (Nat × String), (names.map Prod.snd).Nodup →
      (∀ kv ∈ names, mapGet (dual names) kv.2 = kv.1) ∧
      (∀ k v, (k, v) ∈ names ↔ (v, k) ∈ dual names) ∧
      (dual names).length = names.length ∧
      (names.map Prod.snd).Nodup ∧
      (∀ l : List (Nat × String), l.Perm names →
        ∀ name, mapGet (dual l) name = mapGet (dual names) name) := by
    intro names hn
    refine ⟨?_, fun k v => (mem_dual_iff names hn k v).symm, ?_, hn,
      fun l hp name => mapGet_dual_perm names l hn hp name⟩
    · intro kv hkv
      have hmem : (kv.2, kv.1) ∈ dual names := (mem_dual_iff names hn kv.1 kv.2).2 hkv
      refine mapGet_of_mem (dual names) ?_ kv.2 kv.1 hmem
      rw [dual_of_nodup names hn, map_fst_map_swap]
      exact hn
    · rw [dual_of_nodup names hn, List.length_map]
  exact ⟨key FieldTagNames fieldTagNames_nodup, key GeoKeyNames geoKeyNames_nodup⟩

/-- C13, at the tag TileOffsets and the key ProjectionGeoKey. -/
theorem FieldTags_GeoKeys_inverse_witness :
    mapGet FieldTags "TileOffsets" = 0x0144 ∧ mapGet GeoKeys "ProjectionGeoKey" = 3074 :=
  ⟨FieldTags_GeoKeys_inverse.1.1 (0x0144, "TileOffsets") (by decide),
    FieldTags_GeoKeys_inverse.2.1 (3074, "ProjectionGeoKey") (by decide)⟩

set_option maxRecDepth 100000 in
/-- C18: every one of the 8 entries of `ArrayFields` is a defined tag code: each
name looked up in `FieldTags` is a name of `FieldTagNames`, so no entry is the zero
value of a missed lookup, and the entries are the pairwise distinct codes 0x0102,
0x0152, 0x0153, 0x0117, 0x0111, 0x022F, 0x0145, 0x0144. -/
theorem ArrayFields_defined :
    ArrayFields = [0x0102, 0x0152, 0x0153, 0x0117, 0x0111, 0x022F, 0x0145, 0x0144] ∧
    ArrayFields.length = 8 ∧
    ArrayFields.Nodup ∧
    (∀ c ∈ ArrayFields, c ≠ 0 ∧ c ∈ FieldTagNames.map Prod.fst) ∧
    (∀ name ∈ ["BitsPerSample", "ExtraSamples", "SampleFormat", "StripByteCounts",
        "StripOffsets", "StripRowCounts", "TileByteCounts", "TileOffsets"],
      name ∈ FieldTagNames.map Prod.snd ∧ (mapGet FieldTags name, name) ∈ FieldTagNames) := by
  have h : ArrayFields = [0x0102, 0x0152, 0x0153, 0x0117, 0x0111, 0x022F, 0x0145, 0x0144] := by
    decide
  refine ⟨h, by rw [h]; rfl, by rw [h]; decide, by rw [h]; decide, by decide⟩

/-- C18, at the entry for StripRowCounts. -/
theorem ArrayFields_defined_witness :
    (0x022F : Nat) ≠ 0 ∧ 0x022F ∈ FieldTagNames.map Prod.fst :=
  ArrayFields_defined.2.2.2.1 0x022F (by rw [ArrayFields_defined.1]; decide)

/-! ## The running offset -/

theorem loopAfter_zero (method : Nat → Value) (name : String) (w : Nat) (st : LoopState)
    (idx : Nat → Nat) : loopAfter method name w st idx 0 = st := rfl

theorem loopAfter_succ (method : Nat → Value) (name : String) (w : Nat) (st : LoopState)
    (idx : Nat → Nat) (n : Nat) :
    loopAfter method name w st idx (n + 1) =
      loopStep method name w (loopAfter method name w st idx n) (idx n) := by
  simp [loopAfter, List.range_succ, List.foldl_append]

theorem loopAfter_length (method : Nat → Value) (name : String) (w : Nat) (st : LoopState)
    (idx : Nat → Nat) (n : Nat) :
    (loopAfter method name w st idx n).values.length = st.values.length :=
  foldl_loopStep_length method name w _ st

/-- The calls made by the first `n` iterations: the `k`-th one at the running offset
reached by iteration `k`. -/
theorem loopAfter_reads (method : Nat → Value) (name : String) (w : Nat) (st : LoopState)
    (idx : Nat → Nat) (n : Nat) :
    (loopAfter method name w st idx n).reads =
      st.reads ++ (List.range n).map
        (fun k => ReadCall.mk name (loopAfter method name w st idx (k + 1)).os) := by
  induction n with
  | zero => simp [loopAfter_zero]
  | succ n ih =>
    rw [List.range_succ, List.map_append, ← List.append_assoc, ← ih, List.map_singleton,
      loopAfter_succ]
    rfl

/-- The slot written by iteration `k` holds, after any later iteration, the result
of the call at the running offset reached by iteration `k`. -/
theorem loopAfter_value (method : Nat → Value) (name : String) (w : Nat) (st : LoopState)
    (idx : Nat → Nat) (hinj : ∀ a b, idx a = idx b → a = b) (k n : Nat) (hk : k < n)
    (hlen : idx k < st.values.length) :
    (loopAfter method name w st idx n).values[idx k]? =
      some (method (loopAfter method name w st idx (k + 1)).os) := by
  induction n with
  | zero => omega
  | succ n ih =>
    rcases Nat.lt_succ_iff_lt_or_eq.1 hk with h | h
    · rw [loopAfter_succ]
      have hne : idx n ≠ idx k := fun heq => by have := hinj _ _ heq; omega
      simp only [loopStep]
      rw [List.getElem?_set_ne hne]
      exact ih h
    · subst h
      rw [loopAfter_succ]
      simp only [loopStep]
      rw [List.getElem?_set_self (by rw [loopAfter_length]; exact hlen)]

theorem add_mod_step (a b c : Nat) :
    ((a + b) % uintSize + c % uintSize) % uintSize = (a + (b + c)) % uintSize := by
  rw [← Nat.add_assoc]
  exact (Nat.add_mod _ _ _).symm

theorem triangle_succ (n : Nat) : (n + 1) * (n + 1 + 1) / 2 = n * (n + 1) / 2 + (n + 1) := by
  have h : (n + 1) * (n + 1 + 1) = n * (n + 1) + 2 * (n + 1) := by ring
  rw [h, Nat.add_mul_div_left _ _ (by decide : 0 < 2)]

/-- The running offset of the first loop after iteration `i`:
`offset + width * i * (i + 1) / 2`, modulo `2 ^ 64`. -/
theorem loopAfter_os_normal (method : Nat → Value) (name : String) (w : Nat) (st : LoopState)
    (i : Nat) :
    (loopAfter method name w st id (i + 1)).os = (st.os + w * (i * (i + 1) / 2)) % uintSize := by
  induction i with
  | zero => simp [loopAfter_succ, loopAfter_zero, loopStep]
  | succ i ih =>
    rw [loopAfter_succ]
    simp only [loopStep, id]
    have e : w * ((i + 1) * (i + 1 + 1) / 2) = w * (i * (i + 1) / 2) + (i + 1) * w := by
      rw [triangle_succ, Nat.mul_add w (i * (i + 1) / 2) (i + 1), Nat.mul_comm w (i + 1)]
    rw [ih, e, add_mod_step]

/-- The running offset of the second loop after the iteration at index `2 * k`:
`offset + width * k * (k + 1)`, modulo `2 ^ 64`. -/
theorem loopAfter_os_rational (method : Nat → Value) (name : String) (w : Nat)
    (st : LoopState) (k : Nat) :
    (loopAfter method name w st (fun j => 2 * j) (k + 1)).os =
      (st.os + w * (k * (k + 1))) % uintSize := by
  induction k with
  | zero => simp [loopAfter_succ, loopAfter_zero, loopStep]
  | succ k ih =>
    rw [loopAfter_succ]
    simp only [loopStep]
    have e : w * ((k + 1) * (k + 1 + 1)) = w * (k * (k + 1)) + 2 * (k + 1) * w := by ring
    rw [ih, e, add_mod_step]

theorem normalIndices_eq (count : Nat) : normalIndices count = (List.range count).map id := by
  simp [normalIndices]

theorem rationalIndices_eq (count : Nat) :
    rationalIndices count = (List.range ((count + 1) / 2)).map (fun j => 2 * j) := by
  induction count with
  | zero => rfl
  | succ n ih =>
    have hstep : rationalIndices (n + 1) =
        rationalIndices n ++ (if n % 2 = 0 then [n] else []) := by
      simp only [rationalIndices, List.range_succ, List.filter_append]
      by_cases h : n % 2 = 0 <;> simp [List.filter, h]
    rw [hstep, ih]
    by_cases h : n % 2 = 0
    · have h1 : (n + 1 + 1) / 2 = (n + 1) / 2 + 1 := by omega
      have h2 : 2 * ((n + 1) / 2) = n := by omega
      rw [if_pos h, h1, List.range_succ, List.map_append, List.map_singleton, h2]
    · have h1 : (n + 1 + 1) / 2 = (n + 1) / 2 := by omega
      rw [if_neg h, h1, List.append_nil]

/-! ## The loops and the reads of the buffer -/

theorem loopBody_of_no_method {slice : DataSlice} {name : String}
    (hm : slice.MethodByName name = none) (w : Nat) (st : LoopState) (i : Nat) :
    loopBody slice name w st i = none := by
  simp [loopBody, hm]

/-- Without the method, a loop that runs at least once panics. -/
theorem foldlM_loopBody_of_no_method {slice : DataSlice} {name : String}
    (hm : slice.MethodByName name = none) (w : Nat) (l : List Nat) (st : LoopState)
    (hl : l ≠ []) : l.foldlM (loopBody slice name w) st = none := by
  cases l with
  | nil => exact absurd rfl hl
  | cons i l =>
    rw [List.foldlM_cons, loopBody_of_no_method hm]
    rfl

theorem loopBody_of_read {slice : DataSlice} {name : String} {p : Nat → Option Value}
    (hm : slice.MethodByName name = some p) (w : Nat) (st : LoopState) (i : Nat) (v : Value)
    (hv : p ((st.os + (i * w) % uintSize) % uintSize) = some v) :
    loopBody slice name w st i = some (loopStep (totalOf p) name w st i) := by
  simp only [loopBody, loopStep, totalOf, hm, hv, Option.getD_some]

theorem loopBody_of_failed_read {slice : DataSlice} {name : String} {p : Nat → Option Value}
    (hm : slice.MethodByName name = some p) (w : Nat) (st : LoopState) (i : Nat)
    (hv : p ((st.os + (i * w) % uintSize) % uintSize) = none) :
    loopBody slice name w st i = none := by
  simp only [loopBody, hm, hv]

/-- With the method found, a loop returns exactly when every read it makes
succeeds, and then it is the plain fold of `loopStep`. -/
theorem foldlM_loopBody_eq {slice : DataSlice} {name : String} {p : Nat → Option Value}
    (hm : slice.MethodByName name = some p) (w : Nat) (l : List Nat) (st : LoopState) :
    l.foldlM (loopBody slice name w) st =
      if ∀ o ∈ runOffsets w st.os l, (p o).isSome = true then
        some (l.foldl (loopStep (totalOf p) name w) st)
      else none := by
  induction l generalizing st with
  | nil => simp [runOffsets]
  | cons i l ih =>
    rw [List.foldlM_cons]
    cases hv : p ((st.os + (i * w) % uintSize) % uintSize) with
    | none =>
      rw [loopBody_of_failed_read hm w st i hv, if_neg]
      · rfl
      · intro h
        have h2 := h ((st.os + (i * w) % uintSize) % uintSize)
          (by simp only [runOffsets]; exact List.mem_cons_self _ _)
        rw [hv] at h2
        exact absurd h2 (by simp)
    | some v =>
      rw [loopBody_of_read hm w st i v hv]
      simp only [Option.bind_eq_bind, Option.some_bind, List.foldl_cons]
      rw [ih]
      have hos : (loopStep (totalOf p) name w st i).os =
          (st.os + (i * w) % uintSize) % uintSize := rfl
      rw [hos]
      by_cases hc : ∀ o ∈ runOffsets w ((st.os + (i * w) % uintSize) % uintSize) l,
          (p o).isSome = true
      · rw [if_pos hc, if_pos]
        intro o ho
        simp only [runOffsets, List.mem_cons] at ho
        rcases ho with h | h
        · rw [h, hv]
          rfl
        · exact hc o h
      · rw [if_neg hc, if_neg]
        intro h
        exact hc (fun o ho => h o (by simp only [runOffsets]; exact List.mem_cons_of_mem _ ho))

/-- The calls of a loop are at the offsets of `runOffsets`. -/
theorem foldl_loopStep_offsets (method : Nat → Value) (name : String) (w : Nat)
    (l : List Nat) (st : LoopState) :
    (l.foldl (loopStep method name w) st).reads =
      st.reads ++ (runOffsets w st.os l).map (ReadCall.mk name) := by
  induction l generalizing st with
  | nil => simp [runOffsets]
  | cons i l ih =>
    rw [List.foldl_cons, ih]
    simp [runOffsets, loopStep]

theorem runOffsets_eq_loopAfter (method : Nat → Value) (name : String) (w : Nat)
    (st : LoopState) (idx : Nat → Nat) (n : Nat) :
    runOffsets w st.os ((List.range n).map idx) =
      (List.range n).map (fun k => (loopAfter method name w st idx (k + 1)).os) := by
  have h1 := loopAfter_reads method name w st idx n
  rw [loopAfter, foldl_loopStep_offsets] at h1
  have h2 := congrArg (List.map ReadCall.offset) (List.append_cancel_left h1)
  simpa [List.map_map, Function.comp_def] using h2

theorem runOffsets_normal (w offset count : Nat) :
    runOffsets w offset (normalIndices count) =
      (List.range count).map (fun i => (offset + w * (i * (i + 1) / 2)) % uintSize) := by
  have h := runOffsets_eq_loopAfter (fun _ => Value.nil) "" w (LoopState.mk offset [] []) id
    count
  rw [normalIndices_eq, h]
  simp [loopAfter_os_normal]

theorem runOffsets_rational (w offset count : Nat) :
    runOffsets w offset (rationalIndices count) =
      (List.range ((count + 1) / 2)).map
        (fun k => (offset + w * (k * (k + 1))) % uintSize) := by
  have h := runOffsets_eq_loopAfter (fun _ => Value.nil) "" w (LoopState.mk offset [] [])
    (fun j => 2 * j) ((count + 1) / 2)
  rw [rationalIndices_eq, h]
  simp [loopAfter_os_rational]

theorem some_totalOf {p : Nat → Option Value} {o : Nat} (h : p o ≠ none) :
    some (totalOf p o) = p o := by
  cases hp : p o with
  | none => exact absurd hp h
  | some v => simp [totalOf, hp]

/-! ## Unfolding `GetValues` -/

theorem GetValues_of_error {fieldType : Nat} {w : Nat} {err : String}
    (h : getFieldTypeLength fieldType = (w, some err)) (slice : DataSlice) (count offset : Nat) :
    GetValues slice fieldType count offset =
      some (Result.mk [] (some ("cannot get field type length due to " ++ err)) []) := by
  simp [GetValues, h]

theorem GetValues_of_width {fieldType : Nat} {w : Nat}
    (h : getFieldTypeLength fieldType = (w, none)) (slice : DataSlice) (count offset : Nat) :
    GetValues slice fieldType count offset =
      if count ≤ maxSliceLen then
        ((if fieldType ≠ 5 ∧ fieldType ≠ 10 then normalIndices count
            else rationalIndices count).foldlM (loopBody slice (readMethodName fieldType) w)
          (LoopState.mk offset (List.replicate count Value.nil) [])).map
          (fun st => Result.mk st.values none st.reads)
      else none := by
  simp only [GetValues, h, fieldTypes_rational, fieldTypes_srational]
  by_cases hc : count ≤ maxSliceLen
  · rw [if_pos hc, if_pos hc]
    generalize (if fieldType ≠ 5 ∧ fieldType ≠ 10 then normalIndices count
        else rationalIndices count).foldlM (loopBody slice (readMethodName fieldType) w)
      (LoopState.mk offset (List.replicate count Value.nil) []) = x
    cases x <;> rfl
  · rw [if_neg hc, if_neg hc]

theorem GetValues_of_too_many {fieldType : Nat} {w : Nat}
    (h : getFieldTypeLength fieldType = (w, none)) (slice : DataSlice) (count offset : Nat)
    (hcount : maxSliceLen < count) : GetValues slice fieldType count offset = none := by
  rw [GetValues_of_width h, if_neg (by omega)]

/-- A method found by name returns, where the read succeeds, a populated value of
the type of that method. -/
theorem kind_of_method {slice : DataSlice} {name : String} {p : Nat → Option Value}
    (hm : slice.MethodByName name = some p) (os : Nat) (v : Value) (hv : p os = some v) :
    v ≠ Value.nil ∧ ∃ k, methodKind name = some k ∧ v.kind = some k := by
  unfold DataSlice.MethodByName at hm
  split_ifs at hm with h1 h2 h3 h4 h5 h6 h7 h8 <;>
    (cases hm
     simp only [Option.map_eq_some'] at hv
     obtain ⟨a, -, rfl⟩ := hv
     subst_vars
     exact ⟨by simp, _, by simp [methodKind], rfl⟩)

theorem mem_normalCodes (c : Nat) :
    c ∈ normalCodes ↔ c = 1 ∨ c = 2 ∨ c = 7 ∨ c = 6 ∨ c = 3 ∨ c = 8 ∨ c = 4 ∨ c = 9 ∨ c = 16 ∨
      c = 18 ∨ c = 17 := by
  simp [normalCodes]

theorem normalCodes_defined {c : Nat} (h : c ∈ normalCodes) : c ∈ definedCodes := by
  rw [mem_normalCodes] at h
  rw [mem_definedCodes]
  omega

theorem normalCodes_not_rational {c : Nat} (h : c ∈ normalCodes) : c ≠ 5 ∧ c ≠ 10 := by
  rw [mem_normalCodes] at h
  omega

/-- For the types of the first loop and for RATIONAL the method selected by
`GetValues` is the native read of the type. -/
theorem methodByName_native {c : Nat} (h : c ∈ normalCodes ∨ c = 5) (slice : DataSlice) :
    slice.MethodByName (readMethodName c) = some (nativeRead slice c) := by
  rw [mem_normalCodes] at h
  rcases h with (h | h | h | h | h | h | h | h | h | h | h) | h <;> subst h <;>
    simp [readMethodName_eq, DataSlice.MethodByName] <;> funext os <;> simp [nativeRead]

theorem nativeRead_rational (slice : DataSlice) (os : Nat) :
    nativeRead slice 5 os = (slice.ReadUint32 os).map Value.uint32 := by
  simp [nativeRead]

theorem readMethodName_rational : readMethodName 5 = "ReadUint32" := by
  simp [readMethodName_eq]

theorem getFieldTypeLength_rational : getFieldTypeLength 5 = (8, none) := by
  simp [getFieldTypeLength_eq]

theorem methodByName_unknown (slice : DataSlice) : slice.MethodByName "unknown" = none := by
  simp [DataSlice.MethodByName]

theorem mem_rationalIndices (count j : Nat) :
    j ∈ rationalIndices count ↔ j < count ∧ j % 2 = 0 := by
  simp [rationalIndices, List.mem_filter, List.mem_range]

theorem mem_normalIndices (count j : Nat) : j ∈ normalIndices count ↔ j < count := by
  simp [normalIndices]

/-- The two loops visit no index when `count = 0`. -/
theorem indices_zero (fieldType : Nat) :
    (if fieldType ≠ 5 ∧ fieldType ≠ 10 then normalIndices 0 else rationalIndices 0) = [] := by
  split_ifs <;> rfl

/-! ## The runs that return -/

/-- A run whose loop visits the indices `idx 0, idx 1, ...` returns exactly when
`make` succeeds and every read of the loop succeeds, and then with the state of the
loop after its last iteration. -/
theorem GetValues_run {fieldType w n : Nat} {slice : DataSlice} {p : Nat → Option Value}
    {idx : Nat → Nat} (hw : getFieldTypeLength fieldType = (w, none))
    (hp : slice.MethodByName (readMethodName fieldType) = some p) (count offset : Nat)
    (hidx : (if fieldType ≠ 5 ∧ fieldType ≠ 10 then normalIndices count
      else rationalIndices count) = (List.range n).map idx) (r : Result) :
    GetValues slice fieldType count offset = some r ↔
      count ≤ maxSliceLen ∧
      (∀ o ∈ runOffsets w offset ((List.range n).map idx), p o ≠ none) ∧
      r = Result.mk
        (loopAfter (totalOf p) (readMethodName fieldType) w
          (LoopState.mk offset (List.replicate count Value.nil) []) idx n).values
        none
        (loopAfter (totalOf p) (readMethodName fieldType) w
          (LoopState.mk offset (List.replicate count Value.nil) []) idx n).reads := by
  rw [GetValues_of_width hw, hidx, foldlM_loopBody_eq hp]
  have hiff : (∀ o ∈ runOffsets w offset ((List.range n).map idx), (p o).isSome = true) ↔
      ∀ o ∈ runOffsets w offset ((List.range n).map idx), p o ≠ none := by
    constructor
    · intro h o ho
      exact Option.isSome_iff_ne_none.1 (h o ho)
    · intro h o ho
      exact Option.isSome_iff_ne_none.2 (h o ho)
  by_cases hc : count ≤ maxSliceLen
  · rw [if_pos hc]
    by_cases hr : ∀ o ∈ runOffsets w offset ((List.range n).map idx), (p o).isSome = true
    · rw [if_pos hr]
      simp only [Option.map_some', Option.some.injEq, loopAfter]
      constructor
      · intro h
        exact ⟨hc, hiff.1 hr, h.symm⟩
      · intro h
        exact h.2.2.symm
    · rw [if_neg hr]
      simp only [Option.map_none']
      constructor
      · intro h
        cases h
      · intro h
        exact absurd (hiff.2 h.2.1) hr
  · rw [if_neg hc]
    constructor
    · intro h
      cases h
    · intro h
      exact absurd h.1 hc

/-- What a run on a type of the first loop returns, when it returns: `count`
values, the `i`-th the native read of the type at the running offset
`offset + width * (i * (i + 1) / 2)` modulo `2 ^ 64`, and the calls at these
offsets in order. -/
theorem GetValues_normal_result {fieldType w : Nat} {slice : DataSlice}
    (hft : fieldType ∈ normalCodes) (hw : getFieldTypeLength fieldType = (w, none))
    {count offset : Nat} {r : Result}
    (hr : GetValues slice fieldType count offset = some r) :
    count ≤ maxSliceLen ∧ r.err = none ∧ r.values.length = count ∧
      (∀ i, i < count →
        nativeRead slice fieldType ((offset + w * (i * (i + 1) / 2)) % uintSize) ≠ none ∧
        r.values[i]? =
          nativeRead slice fieldType ((offset + w * (i * (i + 1) / 2)) % uintSize)) ∧
      r.reads = (List.range count).map (fun i =>
        ReadCall.mk (readMethodName fieldType)
          ((offset + w * (i * (i + 1) / 2)) % uintSize)) := by
  have hidx : (if fieldType ≠ 5 ∧ fieldType ≠ 10 then normalIndices count
      else rationalIndices count) = (List.range count).map id := by
    rw [if_pos (normalCodes_not_rational hft), normalIndices_eq]
  obtain ⟨hc, hreads, hres⟩ :=
    (GetValues_run hw (methodByName_native (Or.inl hft) slice) count offset hidx r).1 hr
  rw [← normalIndices_eq, runOffsets_normal] at hreads
  have hsome : ∀ i, i < count →
      nativeRead slice fieldType ((offset + w * (i * (i + 1) / 2)) % uintSize) ≠ none :=
    fun i hi => hreads _ (List.mem_map.2 ⟨i, List.mem_range.2 hi, rfl⟩)
  subst hres
  refine ⟨hc, rfl, ?_, ?_, ?_⟩
  · simp [loopAfter_length]
  · intro i hi
    refine ⟨hsome i hi, ?_⟩
    have h := loopAfter_value (totalOf (nativeRead slice fieldType)) (readMethodName fieldType)
      w (LoopState.mk offset (List.replicate count Value.nil) []) id (fun a b h => h) i count hi
      (by simpa using hi)
    rw [loopAfter_os_normal] at h
    simp only [id] at h
    rw [h]
    exact some_totalOf (hsome i hi)
  · simp [loopAfter_reads, loopAfter_os_normal]

/-- A run on a type of the first loop returns exactly when `make` succeeds and
the native read succeeds at every running offset. -/
theorem GetValues_normal_returns_iff {fieldType w : Nat} (slice : DataSlice)
    (hft : fieldType ∈ normalCodes) (hw : getFieldTypeLength fieldType = (w, none))
    (count offset : Nat) :
    (∃ r, GetValues slice fieldType count offset = some r) ↔
      count ≤ maxSliceLen ∧ ∀ i, i < count →
        nativeRead slice fieldType ((offset + w * (i * (i + 1) / 2)) % uintSize) ≠ none := by
  constructor
  · rintro ⟨r, hr⟩
    obtain ⟨hc, -, -, hv, -⟩ := GetValues_normal_result hft hw hr
    exact ⟨hc, fun i hi => (hv i hi).1⟩
  · rintro ⟨hc, hreads⟩
    have hidx : (if fieldType ≠ 5 ∧ fieldType ≠ 10 then normalIndices count
        else rationalIndices count) = (List.range count).map id := by
      rw [if_pos (normalCodes_not_rational hft), normalIndices_eq]
    refine ⟨_, (GetValues_run hw (methodByName_native (Or.inl hft) slice) count offset hidx
      _).2 ⟨hc, ?_, rfl⟩⟩
    rw [← normalIndices_eq, runOffsets_normal]
    intro o ho
    obtain ⟨i, hi, rfl⟩ := List.mem_map.1 ho
    exact hreads i (List.mem_range.1 hi)

/-- What a run on RATIONAL returns, when it returns: `count` slots, the one at
index `2 * k` holding the unsigned 32-bit read at
`offset + 8 * (k * (k + 1))` modulo `2 ^ 64`, the ones at odd indices nil, and the
calls at these offsets in order. -/
theorem GetValues_rational_result {slice : DataSlice} {count offset : Nat} {r : Result}
    (hr : GetValues slice 5 count offset = some r) :
    count ≤ maxSliceLen ∧ r.err = none ∧ r.values.length = count ∧
      (∀ k, 2 * k < count →
        slice.ReadUint32 ((offset + 8 * (k * (k + 1))) % uintSize) ≠ none ∧
        r.values[2 * k]? =
          (slice.ReadUint32 ((offset + 8 * (k * (k + 1))) % uintSize)).map Value.uint32) ∧
      (∀ i, i < count → i % 2 = 1 → r.values[i]? = some Value.nil) ∧
      r.reads = (List.range ((count + 1) / 2)).map (fun k =>
        ReadCall.mk "ReadUint32" ((offset + 8 * (k * (k + 1))) % uintSize)) := by
  have hidx : (if (5 : Nat) ≠ 5 ∧ (5 : Nat) ≠ 10 then normalIndices count
      else rationalIndices count) = (List.range ((count + 1) / 2)).map (fun j => 2 * j) := by
    rw [if_neg (by decide), rationalIndices_eq]
  obtain ⟨hc, hreads, hres⟩ :=
    (GetValues_run getFieldTypeLength_rational (methodByName_native (Or.inr rfl) slice)
      count offset hidx r).1 hr
  rw [← rationalIndices_eq, runOffsets_rational] at hreads
  have hsome : ∀ k, 2 * k < count →
      nativeRead slice 5 ((offset + 8 * (k * (k + 1))) % uintSize) ≠ none :=
    fun k hk => hreads _ (List.mem_map.2 ⟨k, List.mem_range.2 (by omega), rfl⟩)
  subst hres
  rw [readMethodName_rational]
  refine ⟨hc, rfl, ?_, ?_, ?_, ?_⟩
  · simp [loopAfter_length]
  · intro k hk
    have hk2 := hsome k hk
    refine ⟨fun h => hk2 (by rw [nativeRead_rational, h]; rfl), ?_⟩
    have h := loopAfter_value (totalOf (nativeRead slice 5)) "ReadUint32" 8
      (LoopState.mk offset (List.replicate count Value.nil) []) (fun j => 2 * j)
      (fun a b h => by have h2 : 2 * a = 2 * b := h; omega) k ((count + 1) / 2) (by omega)
      (by simpa using hk)
    rw [loopAfter_os_rational] at h
    rw [h, some_totalOf hk2, nativeRead_rational]
  · intro i hi hodd
    have h := foldl_loopStep_untouched (totalOf (nativeRead slice 5)) "ReadUint32" 8
      ((List.range ((count + 1) / 2)).map (fun j => 2 * j))
      (LoopState.mk offset (List.replicate count Value.nil) []) i
      (fun hmem => by
        obtain ⟨j, -, hj⟩ := List.mem_map.1 hmem
        have hj2 : 2 * j = i := hj
        omega)
    simp only [loopAfter]
    rw [h]
    simp [hi]
  · simp [loopAfter_reads, loopAfter_os_rational]

/-- A run on RATIONAL returns exactly when `make` succeeds and the unsigned
32-bit read succeeds at every running offset. -/
theorem GetValues_rational_returns_iff (slice : DataSlice) (count offset : Nat) :
    (∃ r, GetValues slice 5 count offset = some r) ↔
      count ≤ maxSliceLen ∧ ∀ k, 2 * k < count →
        slice.ReadUint32 ((offset + 8 * (k * (k + 1))) % uintSize) ≠ none := by
  constructor
  · rintro ⟨r, hr⟩
    obtain ⟨hc, -, -, hv, -⟩ := GetValues_rational_result hr
    exact ⟨hc, fun k hk => (hv k hk).1⟩
  · rintro ⟨hc, hreads⟩
    have hidx : (if (5 : Nat) ≠ 5 ∧ (5 : Nat) ≠ 10 then normalIndices count
        else rationalIndices count) = (List.range ((count + 1) / 2)).map (fun j => 2 * j) := by
      rw [if_neg (by decide), rationalIndices_eq]
    refine ⟨_, (GetValues_run getFieldTypeLength_rational
      (methodByName_native (Or.inr rfl) slice) count offset hidx _).2 ⟨hc, ?_, rfl⟩⟩
    rw [← rationalIndices_eq, runOffsets_rational]
    intro o ho
    obtain ⟨k, hk, rfl⟩ := List.mem_map.1 ho
    have h := hreads k (by have := List.mem_range.1 hk; omega)
    rw [nativeRead_rational]
    intro hnone
    exact h (Option.map_eq_none'.1 hnone)

/-! ## The value decoder: claims -/

/-- C3: on SHORT, count 3, offset 100 over a big-endian buffer whose bytes 100 to
107 are `00 01 00 02 00 03 00 04`, `GetValues` reads at 100, 102 and 106 and returns
`[1, 2, 4]`, while the reads at `100 + i * 2` for `i = 0, 1, 2` give `[1, 2, 3]`. -/
theorem GetValues_short_scenario :
    GetValues (bigEndianSlice scenarioBytes) 3 3 100 =
        some (Result.mk [Value.uint16 1, Value.uint16 2, Value.uint16 4] none
          [ReadCall.mk "ReadUint16" 100, ReadCall.mk "ReadUint16" 102,
            ReadCall.mk "ReadUint16" 106]) ∧
      getFieldTypeLength 3 = (2, none) ∧
      (List.range 3).map (fun i => (bigEndianSlice scenarioBytes).ReadUint16 (100 + i * 2)) =
        [some 1, some 2, some 3] := by
  decide

/-- C4, as stated, fails: for BYTE with count `2 ^ 63` the allocation of the
sequence panics, and for BYTE with count 1 at offset 108 of the 108-byte buffer the
read fails; in both runs `GetValues` returns nothing. -/
theorem GetValues_normal_no_return :
    GetValues (bigEndianSlice scenarioBytes) 1 (2 ^ 63) 0 = none ∧
      GetValues (bigEndianSlice scenarioBytes) 1 1 108 = none := by
  decide

/-- C4, amended: for every buffer, offset and count and every non-rational field
type with a read method, `GetValues` returns exactly when `make` can allocate
`count` slots and every read the loop makes succeeds. Whenever it returns, it
returns a nil error and exactly `count` values, each of them the value of a native
read of the type recorded among the calls made on the buffer, none left nil. -/
theorem GetValues_normal_filled (slice : DataSlice) (fieldType count offset w : Nat)
    (hft : fieldType ∈ normalCodes) (hw : getFieldTypeLength fieldType = (w, none)) :
    ((∃ r, GetValues slice fieldType count offset = some r) ↔
      count ≤ maxSliceLen ∧ ∀ i, i < count →
        nativeRead slice fieldType ((offset + w * (i * (i + 1) / 2)) % uintSize) ≠ none) ∧
    (∀ r, GetValues slice fieldType count offset = some r →
      r.err = none ∧ r.values.length = count ∧
      ∀ i, i < count → ∃ os v,
        ReadCall.mk (readMethodName fieldType) os ∈ r.reads ∧
        nativeRead slice fieldType os = some v ∧
        r.values[i]? = some v ∧ v ≠ Value.nil) := by
  refine ⟨GetValues_normal_returns_iff slice hft hw count offset, ?_⟩
  intro r hr
  obtain ⟨-, herr, hlen, hval, hreads⟩ := GetValues_normal_result hft hw hr
  refine ⟨herr, hlen, ?_⟩
  intro i hi
  obtain ⟨hne, hv⟩ := hval i hi
  obtain ⟨v, hsome⟩ := Option.ne_none_iff_exists'.1 hne
  refine ⟨_, v, ?_, hsome, by rw [hv, hsome], ?_⟩
  · rw [hreads]
    exact List.mem_map.2 ⟨i, List.mem_range.2 hi, rfl⟩
  · exact (kind_of_method (methodByName_native (Or.inl hft) slice) _ v hsome).1

/-- C4, amended, at SHORT with count 3 and offset 100 over the scenario buffer. -/
theorem GetValues_normal_filled_witness :
    (∃ r, GetValues (bigEndianSlice scenarioBytes) 3 3 100 = some r) ∧
    (∀ i, i < 3 → ∃ os v,
      ReadCall.mk (readMethodName 3) os ∈
        [ReadCall.mk "ReadUint16" 100, ReadCall.mk "ReadUint16" 102,
          ReadCall.mk "ReadUint16" 106] ∧
      nativeRead (bigEndianSlice scenarioBytes) 3 os = some v ∧
      [Value.uint16 1, Value.uint16 2, Value.uint16 4][i]? = some v ∧ v ≠ Value.nil) :=
  ⟨(GetValues_normal_filled (bigEndianSlice scenarioBytes) 3 3 100 2 (by decide)
      (by decide)).1.2 ⟨by decide, by decide⟩,
    ((GetValues_normal_filled (bigEndianSlice scenarioBytes) 3 3 100 2 (by decide)
      (by decide)).2
      (Result.mk [Value.uint16 1, Value.uint16 2, Value.uint16 4] none
        [ReadCall.mk "ReadUint16" 100, ReadCall.mk "ReadUint16" 102,
          ReadCall.mk "ReadUint16" 106]) (by decide)).2.2⟩

/-- The types FLOAT, DOUBLE and SRATIONAL have a width and the method name
`unknown`. -/
theorem unmapped_facts {c : Nat} (h : c ∈ [10, 11, 12]) :
    (∃ w, getFieldTypeLength c = (w, none)) ∧ readMethodName c = "unknown" := by
  simp only [List.mem_cons, List.mem_singleton, List.not_mem_nil, or_false] at h
  rcases h with h | h | h <;> subst h <;> simp [getFieldTypeLength_eq, readMethodName_eq]

/-- For FLOAT, DOUBLE and SRATIONAL with a positive count `GetValues` never returns:
the first iteration looks up the method `unknown`, which the buffer does not have,
and the run is aborted by the panic of the reflective call, unless `make` has
panicked before. -/
theorem unmapped_positive_count_panics (slice : DataSlice) (fieldType count offset : Nat)
    (hft : fieldType ∈ [10, 11, 12]) (hcount : 0 < count) :
    GetValues slice fieldType count offset = none := by
  obtain ⟨⟨w, hw⟩, hname⟩ := unmapped_facts hft
  rw [GetValues_of_width hw, hname]
  split_ifs with hc hr
  · rw [foldlM_loopBody_of_no_method (methodByName_unknown slice)]
    · rfl
    · intro hnil
      have h0 := (mem_normalIndices count 0).2 hcount
      rw [hnil] at h0
      exact List.not_mem_nil 0 h0
  · rw [foldlM_loopBody_of_no_method (methodByName_unknown slice)]
    · rfl
    · intro hnil
      have h0 := (mem_rationalIndices count 0).2 ⟨hcount, rfl⟩
      rw [hnil] at h0
      exact List.not_mem_nil 0 h0
  · rfl

/-- C5: for SRATIONAL with count 2, and for FLOAT and DOUBLE with count 1, the width
resolver succeeds, the method selected is `unknown`, which the buffer does not have,
and `GetValues` returns nothing, no error either: the reflective call panics. -/
theorem GetValues_unmapped_scenario :
    getFieldTypeLength 10 = (8, none) ∧ readMethodName 10 = "unknown" ∧
      ((bigEndianSlice scenarioBytes).MethodByName "unknown").isNone = true ∧
      GetValues (bigEndianSlice scenarioBytes) 10 2 0 = none ∧
      GetValues (bigEndianSlice scenarioBytes) 11 1 0 = none ∧
      GetValues (bigEndianSlice scenarioBytes) 12 1 0 = none := by
  decide

/-- C6: for every code outside the defined set `GetValues` returns the empty (nil)
sequence and an error, having made no call on the buffer; the error is the one of
the width resolver behind the text `cannot get field type length due to `, so it
carries the code in decimal. In every run that returns an error the sequence is
empty and no call was made. -/
theorem GetValues_undefined_type (slice : DataSlice) (fieldType count offset : Nat) :
    (fieldType ∉ definedCodes →
      GetValues slice fieldType count offset =
        some (Result.mk []
          (some ("cannot get field type length due to invalid field type: " ++
            Nat.repr fieldType)) [])) ∧
    (∀ r, GetValues slice fieldType count offset = some r → r.err ≠ none →
      r.values = [] ∧ r.reads = []) := by
  constructor
  · intro h
    have hs : "cannot get field type length due to invalid field type: " =
        "cannot get field type length due to " ++ "invalid field type: " := by decide
    rw [GetValues_of_error (getFieldTypeLength_of_not_mem h), hs, String.append_assoc]
    rfl
  · intro r hr herr
    by_cases hc : fieldType ∈ definedCodes
    · obtain ⟨w, hw, -⟩ := getFieldTypeLength_of_mem hc
      rw [GetValues_of_width hw] at hr
      by_cases hm : count ≤ maxSliceLen
      · rw [if_pos hm] at hr
        obtain ⟨st, -, hst⟩ := Option.map_eq_some'.1 hr
        rw [← hst] at herr
        exact absurd rfl herr
      · rw [if_neg hm] at hr
        cases hr
    · rw [GetValues_of_error (getFieldTypeLength_of_not_mem hc)] at hr
      cases hr
      exact ⟨rfl, rfl⟩

/-- C6, at code 13 with count 3 and offset 100. -/
theorem GetValues_undefined_type_witness :
    13 ∉ definedCodes ∧
      GetValues (bigEndianSlice scenarioBytes) 13 3 100 =
        some (Result.mk []
          (some "cannot get field type length due to invalid field type: 13") []) :=
  ⟨by decide, (GetValues_undefined_type (bigEndianSlice scenarioBytes) 13 3 100).1 (by decide)⟩

/-- C7: for every buffer, every offset and every defined field type, `GetValues`
with count 0 returns a nil error and an empty sequence, and makes no call on the
buffer. -/
theorem GetValues_count_zero (slice : DataSlice) (fieldType offset : Nat)
    (hft : fieldType ∈ definedCodes) :
    GetValues slice fieldType 0 offset = some (Result.mk [] none []) := by
  obtain ⟨w, hw, -⟩ := getFieldTypeLength_of_mem hft
  rw [GetValues_of_width hw, if_pos (Nat.zero_le _), indices_zero]
  rfl

/-- C7, at RATIONAL with offset 100. -/
theorem GetValues_count_zero_witness :
    5 ∈ definedCodes ∧
      GetValues (bigEndianSlice scenarioBytes) 5 0 100 = some (Result.mk [] none []) :=
  ⟨by decide, GetValues_count_zero (bigEndianSlice scenarioBytes) 5 100 (by decide)⟩

/-! ## RATIONAL -/

/-- C8, as stated, fails: for RATIONAL with count 4 the returned sequence has 4
elements, not 2. -/
theorem GetValues_rational_four_length :
    GetValues (bigEndianSlice scenarioBytes) 5 4 84 =
        some (Result.mk [Value.uint32 0, Value.nil, Value.uint32 65538, Value.nil] none
          [ReadCall.mk "ReadUint32" 84, ReadCall.mk "ReadUint32" 100]) ∧
      [Value.uint32 0, Value.nil, Value.uint32 65538, Value.nil].length ≠ 4 / 2 := by
  decide

/-- C8, amended: for RATIONAL and every even count, `GetValues` returns exactly
when `make` can allocate `count` slots and every read the loop makes succeeds.
Whenever it returns, it returns a nil error and a sequence of exactly `count`
elements, in which the first element of each of the `count / 2` pairs (index
`2 * k`) holds the value of one unsigned 32-bit read made on the buffer. -/
theorem GetValues_rational_even (slice : DataSlice) (count offset : Nat)
    (heven : count % 2 = 0) :
    ((∃ r, GetValues slice 5 count offset = some r) ↔
      count ≤ maxSliceLen ∧ ∀ k, 2 * k < count →
        slice.ReadUint32 ((offset + 8 * (k * (k + 1))) % uintSize) ≠ none) ∧
    (∀ r, GetValues slice 5 count offset = some r →
      r.err = none ∧ r.values.length = count ∧
      ∀ k, k < count / 2 → ∃ os v, ReadCall.mk "ReadUint32" os ∈ r.reads ∧
        slice.ReadUint32 os = some v ∧ r.values[2 * k]? = some (Value.uint32 v)) := by
  refine ⟨GetValues_rational_returns_iff slice count offset, ?_⟩
  intro r hr
  obtain ⟨-, herr, hlen, hval, -, hreads⟩ := GetValues_rational_result hr
  refine ⟨herr, hlen, ?_⟩
  intro k hk
  obtain ⟨hne, hv⟩ := hval k (by omega)
  obtain ⟨v, hsome⟩ := Option.ne_none_iff_exists'.1 hne
  refine ⟨_, v, ?_, hsome, by rw [hv, hsome]; rfl⟩
  rw [hreads]
  exact List.mem_map.2 ⟨k, List.mem_range.2 (by omega), rfl⟩

/-- C8, amended, at count 4 and offset 84 over the scenario buffer. -/
theorem GetValues_rational_even_witness :
    (∃ r, GetValues (bigEndianSlice scenarioBytes) 5 4 84 = some r) ∧
    (∀ k, k < 4 / 2 → ∃ os v,
      ReadCall.mk "ReadUint32" os ∈
        [ReadCall.mk "ReadUint32" 84, ReadCall.mk "ReadUint32" 100] ∧
      (bigEndianSlice scenarioBytes).ReadUint32 os = some v ∧
      [Value.uint32 0, Value.nil, Value.uint32 65538, Value.nil][2 * k]? =
        some (Value.uint32 v)) :=
  ⟨(GetValues_rational_even (bigEndianSlice scenarioBytes) 4 84 (by decide)).1.2
      ⟨by decide, fun k hk => by
        have hk2 : k = 0 ∨ k = 1 := by omega
        rcases hk2 with h | h <;> subst h <;> decide⟩,
    ((GetValues_rational_even (bigEndianSlice scenarioBytes) 4 84 (by decide)).2
      (Result.mk [Value.uint32 0, Value.nil, Value.uint32 65538, Value.nil] none
        [ReadCall.mk "ReadUint32" 84, ReadCall.mk "ReadUint32" 100]) (by decide)).2.2⟩

/-- C9, as stated, fails: for RATIONAL with count 4 and offset 84 the width is 8
and the two reads are at 84 and 100, not at 84 and 92. -/
theorem GetValues_rational_four_reads :
    getFieldTypeLength 5 = (8, none) ∧
      (GetValues (bigEndianSlice scenarioBytes) 5 4 84).map Result.reads =
        some [ReadCall.mk "ReadUint32" 84, ReadCall.mk "ReadUint32" 100] ∧
      (GetValues (bigEndianSlice scenarioBytes) 5 4 84).map Result.reads ≠
        some [ReadCall.mk "ReadUint32" 84, ReadCall.mk "ReadUint32" (84 + 2 * 4)] := by
  decide

/-- C9, amended: for RATIONAL every read is an unsigned 32-bit read and the width
used for the stride is 8, the width of the table. Whenever `GetValues` returns, the
read of loop index 0 is at `offset` and the read of loop index 2 is at
`offset + 2 * 8` (modulo `2 ^ 64`), and for count 4 these are the two reads made;
with count 4 it returns when these two reads succeed. -/
theorem GetValues_rational_reads (slice : DataSlice) (count offset : Nat)
    (hoff : offset < uintSize) :
    getFieldTypeLength 5 = (8, none) ∧
    (∀ r, GetValues slice 5 count offset = some r →
      (∀ c ∈ r.reads, c.method = "ReadUint32") ∧
      (1 ≤ count →
        r.reads[0]? = some (ReadCall.mk "ReadUint32" offset) ∧
        r.values[0]? = (slice.ReadUint32 offset).map Value.uint32) ∧
      (3 ≤ count →
        r.reads[1]? = some (ReadCall.mk "ReadUint32" ((offset + 2 * 8) % uintSize)) ∧
        r.values[2]? = (slice.ReadUint32 ((offset + 2 * 8) % uintSize)).map Value.uint32) ∧
      (count = 4 →
        r.reads = [ReadCall.mk "ReadUint32" offset,
          ReadCall.mk "ReadUint32" ((offset + 2 * 8) % uintSize)])) ∧
    (slice.ReadUint32 offset ≠ none → slice.ReadUint32 ((offset + 2 * 8) % uintSize) ≠ none →
      ∃ r, GetValues slice 5 4 offset = some r) := by
  have h0 : (offset + 8 * (0 * (0 + 1))) % uintSize = offset := by
    simp [Nat.mod_eq_of_lt hoff]
  have h1 : (offset + 8 * (1 * (1 + 1))) % uintSize = (offset + 2 * 8) % uintSize := rfl
  refine ⟨getFieldTypeLength_rational, ?_, ?_⟩
  · intro r hr
    obtain ⟨-, -, -, hval, -, hreads⟩ := GetValues_rational_result hr
    refine ⟨?_, ?_, ?_, ?_⟩
    · intro c hc
      rw [hreads] at hc
      obtain ⟨k, -, rfl⟩ := List.mem_map.1 hc
      rfl
    · intro hcount
      constructor
      · rw [hreads, List.getElem?_map, List.getElem?_range (by omega)]
        simp only [Option.map_some', h0]
      · have h := (hval 0 (by omega)).2
        rw [h0] at h
        exact h
    · intro hcount
      constructor
      · rw [hreads, List.getElem?_map, List.getElem?_range (by omega)]
        simp only [Option.map_some', h1]
      · have h := (hval 1 (by omega)).2
        rw [h1] at h
        exact h
    · intro hcount
      subst hcount
      rw [hreads]
      have hr2 : List.range ((4 + 1) / 2) = [0, 1] := by decide
      rw [hr2]
      simp only [List.map_cons, List.map_nil, h0, h1]
  · intro hr0 hr1
    refine (GetValues_rational_returns_iff slice 4 offset).2 ⟨by decide, ?_⟩
    intro k hk
    have hk2 : k = 0 ∨ k = 1 := by omega
    rcases hk2 with h | h <;> subst h
    · rw [h0]
      exact hr0
    · rw [h1]
      exact hr1

/-- C9, amended, at count 4 and offset 84 over the scenario buffer. -/
theorem GetValues_rational_reads_witness :
    (∃ r, GetValues (bigEndianSlice scenarioBytes) 5 4 84 = some r) ∧
    [ReadCall.mk "ReadUint32" 84, ReadCall.mk "ReadUint32" 100] =
      [ReadCall.mk "ReadUint32" 84, ReadCall.mk "ReadUint32" ((84 + 2 * 8) % uintSize)] :=
  ⟨(GetValues_rational_reads (bigEndianSlice scenarioBytes) 4 84 (by decide)).2.2
      (by decide) (by decide),
    ((GetValues_rational_reads (bigEndianSlice scenarioBytes) 4 84 (by decide)).2.1
      (Result.mk [Value.uint32 0, Value.nil, Value.uint32 65538, Value.nil] none
        [ReadCall.mk "ReadUint32" 84, ReadCall.mk "ReadUint32" 100]) (by decide)).2.2.2 rfl⟩

/-! ## The dispatch -/

/-- C10, as stated, fails: for RATIONAL with count 2 the call succeeds and the
second element of the returned sequence is left nil. -/
theorem GetValues_rational_two_unpopulated :
    GetValues (bigEndianSlice scenarioBytes) 5 2 100 =
      some (Result.mk [Value.uint32 65538, Value.nil] none [ReadCall.mk "ReadUint32" 100]) := by
  decide

/-- C10, amended: `GetValues` selects the read method by field type as the dispatch
table says. In every successful call every element of the returned sequence that is
populated has the one native type of that method, fixed by the field type alone;
and for the non-rational types with a read method every element is populated. -/
theorem GetValues_dispatch :
    ((∀ c ∈ [1, 2, 7], readMethodName c = "ReadUint8") ∧ readMethodName 6 = "ReadInt8" ∧
      readMethodName 3 = "ReadUint16" ∧ readMethodName 8 = "ReadInt16" ∧
      readMethodName 4 = "ReadUint32" ∧ readMethodName 9 = "ReadInt32" ∧
      (∀ c ∈ [16, 18], readMethodName c = "ReadUint64") ∧ readMethodName 17 = "ReadInt64" ∧
      readMethodName 5 = "ReadUint32") ∧
    (∀ (slice : DataSlice) (fieldType count offset : Nat) (r : Result),
      GetValues slice fieldType count offset = some r → r.err = none →
      ∀ v ∈ r.values, v = Value.nil ∨
        ∃ k, methodKind (readMethodName fieldType) = some k ∧ v.kind = some k) ∧
    (∀ (slice : DataSlice) (fieldType count offset : Nat) (r : Result),
      fieldType ∈ normalCodes → GetValues slice fieldType count offset = some r →
      ∀ v ∈ r.values, ∃ k, methodKind (readMethodName fieldType) = some k ∧ v.kind = some k) := by
  refine ⟨by decide, ?_, ?_⟩
  · intro slice fieldType count offset r hr herr v hv
    by_cases hc : fieldType ∈ definedCodes
    · obtain ⟨w, hw, -⟩ := getFieldTypeLength_of_mem hc
      rw [GetValues_of_width hw] at hr
      by_cases hmake : count ≤ maxSliceLen
      · rw [if_pos hmake] at hr
        generalize (if fieldType ≠ 5 ∧ fieldType ≠ 10 then normalIndices count
          else rationalIndices count) = l at hr
        cases hm : slice.MethodByName (readMethodName fieldType) with
        | none =>
          by_cases hl : l = []
          · rw [hl] at hr
            cases hr
            exact Or.inl (List.eq_of_mem_replicate hv)
          · rw [foldlM_loopBody_of_no_method hm _ _ _ hl] at hr
            cases hr
        | some p =>
          rw [foldlM_loopBody_eq hm] at hr
          by_cases hreads : ∀ o ∈ runOffsets w
              (LoopState.mk offset (List.replicate count Value.nil) []).os l, (p o).isSome = true
          · rw [if_pos hreads] at hr
            cases hr
            rcases foldl_loopStep_mem (totalOf p) _ w _ _ v hv with h | ⟨os, hos⟩
            · exact Or.inl (List.eq_of_mem_replicate h)
            · cases hp : p os with
              | none =>
                left
                rw [hos, totalOf, hp]
                rfl
              | some u =>
                right
                have hvu : v = u := by rw [hos, totalOf, hp]; rfl
                rw [hvu]
                exact (kind_of_method hm os u hp).2
          · rw [if_neg hreads] at hr
            cases hr
      · rw [if_neg hmake] at hr
        cases hr
    · rw [GetValues_of_error (getFieldTypeLength_of_not_mem hc)] at hr
      cases hr
      cases herr
  · intro slice fieldType count offset r hft hr v hv
    obtain ⟨w, hw, -⟩ := getFieldTypeLength_of_mem (normalCodes_defined hft)
    obtain ⟨-, -, hlen, hval, -⟩ := GetValues_normal_result hft hw hr
    obtain ⟨i, hi, hiv⟩ := List.getElem_of_mem hv
    obtain ⟨-, h2⟩ := hval i (by omega)
    rw [List.getElem?_eq_getElem hi, hiv] at h2
    exact (kind_of_method (methodByName_native (Or.inl hft) slice) _ v h2.symm).2

/-- C10, amended, at RATIONAL with count 2 and at SHORT with count 3 over the
scenario buffer. -/
theorem GetValues_dispatch_witness :
    (∀ v ∈ [Value.uint32 65538, Value.nil], v = Value.nil ∨
        ∃ k, methodKind (readMethodName 5) = some k ∧ v.kind = some k) ∧
    (∀ v ∈ [Value.uint16 1, Value.uint16 2, Value.uint16 4],
        ∃ k, methodKind (readMethodName 3) = some k ∧ v.kind = some k) :=
  ⟨GetValues_dispatch.2.1 (bigEndianSlice scenarioBytes) 5 2 100
      (Result.mk [Value.uint32 65538, Value.nil] none [ReadCall.mk "ReadUint32" 100])
      (by decide) rfl,
    GetValues_dispatch.2.2 (bigEndianSlice scenarioBytes) 3 3 100
      (Result.mk [Value.uint16 1, Value.uint16 2, Value.uint16 4] none
        [ReadCall.mk "ReadUint16" 100, ReadCall.mk "ReadUint16" 102,
          ReadCall.mk "ReadUint16" 106])
      (by decide) (by decide)⟩

/-! ## The loops in closed form -/

theorem triangle_eq_self_iff (i : Nat) : i * (i + 1) / 2 = i ↔ i ≤ 1 := by
  cases i with
  | zero => simp
  | succ j =>
    rw [triangle_succ]
    cases j with
    | zero => simp
    | succ k =>
      rw [triangle_succ]
      omega

/-- C11, as stated, fails: for LONG with count 1 at offset 106 of the 108-byte
buffer the native read, of the 4 bytes from 106, fails, and `GetValues` returns
nothing. -/
theorem GetValues_long_read_fails :
    nativeRead (bigEndianSlice scenarioBytes) 4 106 = none ∧
      GetValues (bigEndianSlice scenarioBytes) 4 1 106 = none := by
  decide

/-- C11, amended: for every non-rational field type with a read method and every
offset, `GetValues` with count 1 makes the native read of the type at `offset`
itself, no stride applied. When that read succeeds it returns a nil error and the
one-element sequence holding exactly the value of the read, the only call made; when
the read fails it returns nothing. -/
theorem GetValues_count_one (slice : DataSlice) (fieldType offset : Nat)
    (hft : fieldType ∈ normalCodes) (hoff : offset < uintSize) :
    GetValues slice fieldType 1 offset =
      (nativeRead slice fieldType offset).map
        (fun v => Result.mk [v] none [ReadCall.mk (readMethodName fieldType) offset]) := by
  obtain ⟨w, hw, -⟩ := getFieldTypeLength_of_mem (normalCodes_defined hft)
  have hidx : normalIndices 1 = [0] := rfl
  have hos : (offset + (0 * w) % uintSize) % uintSize = offset := by
    rw [Nat.zero_mul, Nat.zero_mod, Nat.add_zero, Nat.mod_eq_of_lt hoff]
  rw [GetValues_of_width hw, if_pos (by decide), if_pos (normalCodes_not_rational hft), hidx]
  simp only [List.foldlM_cons, List.foldlM_nil, loopBody,
    methodByName_native (Or.inl hft) slice, hos]
  cases nativeRead slice fieldType offset <;> rfl

/-- C11, amended, at LONG with count 1 and offset 0 over the big-endian bytes
`00 00 01 00`: the result is `[256]` as an unsigned 32-bit value. -/
theorem GetValues_count_one_witness :
    nativeRead (bigEndianSlice [0, 0, 1, 0]) 4 0 = some (Value.uint32 256) ∧
    GetValues (bigEndianSlice [0, 0, 1, 0]) 4 1 0 =
      some (Result.mk [Value.uint32 256] none [ReadCall.mk "ReadUint32" 0]) :=
  ⟨by decide,
    (GetValues_count_one (bigEndianSlice [0, 0, 1, 0]) 4 0 (by decide) (by decide)).trans
      (by decide)⟩

/-- C16: in the first loop the running offset is accumulated: for every
non-rational field type with a read method, every count and every `i < count`, the
`i`-th returned value is the native read of the type at
`offset + width * (i * (i + 1) / 2)` modulo `2 ^ 64`. Without the reduction this
offset equals `offset + i * width` exactly for `i = 0` and `i = 1`. The run returns
exactly when `make` succeeds and these reads succeed. -/
theorem GetValues_normal_accumulated (slice : DataSlice) (fieldType count offset w : Nat)
    (hft : fieldType ∈ normalCodes) (hw : getFieldTypeLength fieldType = (w, none)) :
    (∀ r, GetValues slice fieldType count offset = some r →
      ∀ i, i < count →
        r.values[i]? =
          nativeRead slice fieldType ((offset + w * (i * (i + 1) / 2)) % uintSize) ∧
        nativeRead slice fieldType ((offset + w * (i * (i + 1) / 2)) % uintSize) ≠ none) ∧
    ((∃ r, GetValues slice fieldType count offset = some r) ↔
      count ≤ maxSliceLen ∧ ∀ i, i < count →
        nativeRead slice fieldType ((offset + w * (i * (i + 1) / 2)) % uintSize) ≠ none) ∧
    (∀ i, offset + w * (i * (i + 1) / 2) = offset + i * w ↔ i ≤ 1) := by
  refine ⟨?_, GetValues_normal_returns_iff slice hft hw count offset, ?_⟩
  · intro r hr i hi
    obtain ⟨-, -, -, hval, -⟩ := GetValues_normal_result hft hw hr
    exact ⟨(hval i hi).2, (hval i hi).1⟩
  · intro i
    obtain ⟨w0, hw0, hpos⟩ := getFieldTypeLength_of_mem (normalCodes_defined hft)
    have hww : w = w0 := by
      rw [hw] at hw0
      cases hw0
      rfl
    have hwpos : 0 < w := by omega
    rw [← triangle_eq_self_iff i, Nat.add_left_cancel_iff, Nat.mul_comm i w]
    exact ⟨fun h => Nat.eq_of_mul_eq_mul_left hwpos h, fun h => by rw [h]⟩

/-- C16, at SHORT with count 3 and offset 100 over the scenario buffer: the values
are the reads at 100, 102 and 106. -/
theorem GetValues_normal_accumulated_witness :
    (∃ r, GetValues (bigEndianSlice scenarioBytes) 3 3 100 = some r) ∧
    (∀ i, i < 3 →
      [Value.uint16 1, Value.uint16 2, Value.uint16 4][i]? =
        nativeRead (bigEndianSlice scenarioBytes) 3 ((100 + 2 * (i * (i + 1) / 2)) % uintSize) ∧
      nativeRead (bigEndianSlice scenarioBytes) 3 ((100 + 2 * (i * (i + 1) / 2)) % uintSize) ≠
        none) :=
  ⟨(GetValues_normal_accumulated (bigEndianSlice scenarioBytes) 3 3 100 2 (by decide)
      (by decide)).2.1.2 ⟨by decide, by decide⟩,
    (GetValues_normal_accumulated (bigEndianSlice scenarioBytes) 3 3 100 2 (by decide)
      (by decide)).1
      (Result.mk [Value.uint16 1, Value.uint16 2, Value.uint16 4] none
        [ReadCall.mk "ReadUint16" 100, ReadCall.mk "ReadUint16" 102,
          ReadCall.mk "ReadUint16" 106]) (by decide)⟩

/-! ## RATIONAL: slots and reads -/

/-- C14, as stated, fails: for RATIONAL with the odd count 3 the last element is
populated and the one before it is nil, and with the even count 2 the last element
is left nil. -/
theorem GetValues_rational_odd_last_populated :
    GetValues (bigEndianSlice scenarioBytes) 5 3 84 =
        some (Result.mk [Value.uint32 0, Value.nil, Value.uint32 65538] none
          [ReadCall.mk "ReadUint32" 84, ReadCall.mk "ReadUint32" 100]) ∧
      GetValues (bigEndianSlice scenarioBytes) 5 2 84 =
        some (Result.mk [Value.uint32 0, Value.nil] none [ReadCall.mk "ReadUint32" 84]) := by
  decide

/-- C14, amended: for RATIONAL the slots left unfilled in a returned sequence are
those at the odd indices, whatever the parity of the count: every element at an even
index holds the value of an unsigned 32-bit read and every element at an odd index
is nil. So with an odd count the last element is populated, and with an even
positive count the last element is nil. The run returns exactly when `make`
succeeds and the reads of the loop succeed. -/
theorem GetValues_rational_unfilled (slice : DataSlice) (count offset : Nat) :
    (∀ r, GetValues slice 5 count offset = some r →
      r.err = none ∧ r.values.length = count ∧
      (∀ i, i < count →
        (i % 2 = 0 → ∃ os v, slice.ReadUint32 os = some v ∧
          r.values[i]? = some (Value.uint32 v)) ∧
        (i % 2 = 1 → r.values[i]? = some Value.nil)) ∧
      (count % 2 = 1 → ∃ os v, slice.ReadUint32 os = some v ∧
        r.values[count - 1]? = some (Value.uint32 v)) ∧
      (count % 2 = 0 → 0 < count → r.values[count - 1]? = some Value.nil)) ∧
    ((∃ r, GetValues slice 5 count offset = some r) ↔
      count ≤ maxSliceLen ∧ ∀ k, 2 * k < count →
        slice.ReadUint32 ((offset + 8 * (k * (k + 1))) % uintSize) ≠ none) := by
  refine ⟨?_, GetValues_rational_returns_iff slice count offset⟩
  intro r hr
  obtain ⟨-, herr, hlen, hval, hodd, -⟩ := GetValues_rational_result hr
  have hpoint : ∀ i, i < count →
      (i % 2 = 0 → ∃ os v, slice.ReadUint32 os = some v ∧
        r.values[i]? = some (Value.uint32 v)) ∧
      (i % 2 = 1 → r.values[i]? = some Value.nil) := by
    intro i hi
    refine ⟨?_, hodd i hi⟩
    intro heven
    obtain ⟨hne, hv⟩ := hval (i / 2) (by omega)
    obtain ⟨v, hsome⟩ := Option.ne_none_iff_exists'.1 hne
    have hi2 : 2 * (i / 2) = i := by omega
    rw [hi2] at hv
    exact ⟨_, v, hsome, by rw [hv, hsome]; rfl⟩
  refine ⟨herr, hlen, hpoint, ?_, ?_⟩
  · intro hoddc
    exact (hpoint (count - 1) (by omega)).1 (by omega)
  · intro hevenc hpos
    exact (hpoint (count - 1) (by omega)).2 (by omega)

/-- C14, amended, at count 3 and offset 84 over the scenario buffer. -/
theorem GetValues_rational_unfilled_witness :
    (∃ r, GetValues (bigEndianSlice scenarioBytes) 5 3 84 = some r) ∧
    (∃ os v, (bigEndianSlice scenarioBytes).ReadUint32 os = some v ∧
      [Value.uint32 0, Value.nil, Value.uint32 65538][3 - 1]? = some (Value.uint32 v)) :=
  ⟨(GetValues_rational_unfilled (bigEndianSlice scenarioBytes) 3 84).2.2
      ⟨by decide, fun k hk => by
        have hk2 : k = 0 ∨ k = 1 := by omega
        rcases hk2 with h | h <;> subst h <;> decide⟩,
    ((GetValues_rational_unfilled (bigEndianSlice scenarioBytes) 3 84).1
      (Result.mk [Value.uint32 0, Value.nil, Value.uint32 65538] none
        [ReadCall.mk "ReadUint32" 84, ReadCall.mk "ReadUint32" 100])
      (by decide)).2.2.2.1 (by decide)⟩

/-- C15, as stated, fails: for RATIONAL with count 4 two reads are made, not four. -/
theorem GetValues_rational_four_two_reads :
    GetValues (bigEndianSlice scenarioBytes) 5 4 84 =
        some (Result.mk [Value.uint32 0, Value.nil, Value.uint32 65538, Value.nil] none
          [ReadCall.mk "ReadUint32" 84, ReadCall.mk "ReadUint32" 100]) ∧
      [ReadCall.mk "ReadUint32" 84, ReadCall.mk "ReadUint32" 100].length ≠ 4 := by
  decide

/-- C15, amended: a run of `GetValues` that returns has made exactly one call on
the buffer per element it fills. For every non-rational field type with a read
method and every count it has made exactly `count` calls, the `i`-th of them filling
element `i`; for RATIONAL it has made one call per pair, `(count + 1) / 2` in all,
the `k`-th of them filling element `2 * k`. The run returns exactly when `make`
succeeds and these reads succeed. -/
theorem GetValues_read_count (slice : DataSlice) (count offset : Nat) :
    (∀ fieldType w, fieldType ∈ normalCodes → getFieldTypeLength fieldType = (w, none) →
      (∀ r, GetValues slice fieldType count offset = some r →
        r.reads.length = count ∧
        ∀ i, i < count → ∃ os, r.reads[i]? = some (ReadCall.mk (readMethodName fieldType) os) ∧
          r.values[i]? = nativeRead slice fieldType os ∧
          nativeRead slice fieldType os ≠ none) ∧
      ((∃ r, GetValues slice fieldType count offset = some r) ↔
        count ≤ maxSliceLen ∧ ∀ i, i < count →
          nativeRead slice fieldType ((offset + w * (i * (i + 1) / 2)) % uintSize) ≠ none)) ∧
    (∀ r, GetValues slice 5 count offset = some r →
      r.reads.length = (count + 1) / 2 ∧
      ∀ k, 2 * k < count → ∃ os, r.reads[k]? = some (ReadCall.mk "ReadUint32" os) ∧
        r.values[2 * k]? = (slice.ReadUint32 os).map Value.uint32 ∧
        slice.ReadUint32 os ≠ none) ∧
    ((∃ r, GetValues slice 5 count offset = some r) ↔
      count ≤ maxSliceLen ∧ ∀ k, 2 * k < count →
        slice.ReadUint32 ((offset + 8 * (k * (k + 1))) % uintSize) ≠ none) := by
  refine ⟨?_, ?_, GetValues_rational_returns_iff slice count offset⟩
  · intro fieldType w hft hw
    refine ⟨?_, GetValues_normal_returns_iff slice hft hw count offset⟩
    intro r hr
    obtain ⟨-, -, -, hval, hreads⟩ := GetValues_normal_result hft hw hr
    refine ⟨by rw [hreads]; simp, ?_⟩
    intro i hi
    refine ⟨_, ?_, (hval i hi).2, (hval i hi).1⟩
    rw [hreads, List.getElem?_map, List.getElem?_range hi]
    rfl
  · intro r hr
    obtain ⟨-, -, -, hval, -, hreads⟩ := GetValues_rational_result hr
    refine ⟨by rw [hreads]; simp, ?_⟩
    intro k hk
    refine ⟨_, ?_, (hval k hk).2, (hval k hk).1⟩
    rw [hreads, List.getElem?_map, List.getElem?_range (by omega)]
    rfl

/-- C15, amended, at SHORT with count 3 and offset 100 over the scenario buffer. -/
theorem GetValues_read_count_witness :
    (∃ r, GetValues (bigEndianSlice scenarioBytes) 3 3 100 = some r) ∧
    [ReadCall.mk "ReadUint16" 100, ReadCall.mk "ReadUint16" 102,
      ReadCall.mk "ReadUint16" 106].length = 3 :=
  ⟨((GetValues_read_count (bigEndianSlice scenarioBytes) 3 100).1 3 2 (by decide)
      (by decide)).2.2 ⟨by decide, by decide⟩,
    (((GetValues_read_count (bigEndianSlice scenarioBytes) 3 100).1 3 2 (by decide)
      (by decide)).1
      (Result.mk [Value.uint16 1, Value.uint16 2, Value.uint16 4] none
        [ReadCall.mk "ReadUint16" 100, ReadCall.mk "ReadUint16" 102,
          ReadCall.mk "ReadUint16" 106]) (by decide)).1⟩

/-- C17, as stated, fails: for RATIONAL with count `2 ^ 64 - 1` the allocation of
the sequence panics, and with count 4 at offset 100 of the 108-byte buffer the
second read, at 116, fails; in both runs `GetValues` returns nothing. -/
theorem GetValues_rational_no_return :
    GetValues (bigEndianSlice scenarioBytes) 5 (2 ^ 64 - 1) 0 = none ∧
      GetValues (bigEndianSlice scenarioBytes) 5 4 100 = none := by
  decide

/-- C17, amended: for RATIONAL and every count `GetValues` returns exactly when
`make` can allocate `count` slots and the unsigned 32-bit reads at
`offset + 8 * (k * (k + 1))` modulo `2 ^ 64`, for `2 * k < count`, succeed. Whenever
it returns, it returns a nil error and a sequence of exactly `count` elements, in
which every even index `2 * k` holds the value of that read and every odd index is
nil; it has made `(count + 1) / 2` reads, these ones in order, and none of them is
at the denominator of a pair, 4 bytes after a numerator that was read. -/
theorem GetValues_rational_accumulated (slice : DataSlice) (count offset : Nat) :
    ((∃ r, GetValues slice 5 count offset = some r) ↔
      count ≤ maxSliceLen ∧ ∀ k, 2 * k < count →
        slice.ReadUint32 ((offset + 8 * (k * (k + 1))) % uintSize) ≠ none) ∧
    (∀ r, GetValues slice 5 count offset = some r →
      r.err = none ∧ r.values.length = count ∧
      (∀ k, 2 * k < count →
        r.values[2 * k]? =
          (slice.ReadUint32 ((offset + 8 * (k * (k + 1))) % uintSize)).map Value.uint32 ∧
        slice.ReadUint32 ((offset + 8 * (k * (k + 1))) % uintSize) ≠ none) ∧
      (∀ i, i < count → i % 2 = 1 → r.values[i]? = some Value.nil) ∧
      r.reads = (List.range ((count + 1) / 2)).map
        (fun k => ReadCall.mk "ReadUint32" ((offset + 8 * (k * (k + 1))) % uintSize)) ∧
      r.reads.length = (count + 1) / 2 ∧
      (∀ c ∈ r.reads, ∀ d ∈ r.reads, d.offset ≠ c.offset + 4)) := by
  refine ⟨GetValues_rational_returns_iff slice count offset, ?_⟩
  intro r hr
  obtain ⟨-, herr, hlen, hval, hodd, hreads⟩ := GetValues_rational_result hr
  have hmod : ∀ c ∈ r.reads, c.offset % 8 = offset % 8 := by
    intro c hc
    rw [hreads] at hc
    obtain ⟨k, -, hk⟩ := List.mem_map.1 hc
    rw [← hk]
    simp only
    rw [Nat.mod_mod_of_dvd _ (by decide : 8 ∣ uintSize)]
    omega
  refine ⟨herr, hlen, fun k hk => ⟨(hval k hk).2, (hval k hk).1⟩, hodd, hreads, ?_, ?_⟩
  · rw [hreads]
    simp
  · intro c hc d hd heq
    have h1 := hmod c hc
    have h2 := hmod d hd
    omega

/-- C17, amended, at count 3 and offset 84 over the scenario buffer. -/
theorem GetValues_rational_accumulated_witness :
    (∃ r, GetValues (bigEndianSlice scenarioBytes) 5 3 84 = some r) ∧
    [ReadCall.mk "ReadUint32" 84, ReadCall.mk "ReadUint32" 100] =
      (List.range ((3 + 1) / 2)).map
        (fun k => ReadCall.mk "ReadUint32" ((84 + 8 * (k * (k + 1))) % uintSize)) :=
  ⟨(GetValues_rational_accumulated (bigEndianSlice scenarioBytes) 3 84).1.2
      ⟨by decide, fun k hk => by
        have hk2 : k = 0 ∨ k = 1 := by omega
        rcases hk2 with h | h <;> subst h <;> decide⟩,
    ((GetValues_rational_accumulated (bigEndianSlice scenarioBytes) 3 84).2
      (Result.mk [Value.uint32 0, Value.nil, Value.uint32 65538] none
        [ReadCall.mk "ReadUint32" 84, ReadCall.mk "ReadUint32" 100])
      (by decide)).2.2.2.2.1⟩

end Geotiff
